import Mathlib

/-!
Verification of the stig typed settings/value system: a shallow embedding of
`stig/utils/stringables.py`, `stig/utils/_converter.py` and the value-resolution
pipeline of `stig/commands/base/config.py`, together with theorems settling the
frozen claims about the specification.

Python floats are modelled as extended rationals (`PF`): the numeric literals
the code handles parse to exact decimal fractions, and every arithmetic step
the claims exercise is exact at these magnitudes, so the rational model agrees
with IEEE doubles on all inputs appearing below.  `nan` is included so that the
arithmetic translation stays total, but no claim reaches it.
-/

set_option maxRecDepth 100000
set_option maxHeartbeats 1000000

namespace Stig

/-- Python float value: finite rational, positive/negative infinity, or nan. -/
inductive PF where
  | fin (q : ℚ)
  | inf
  | ninf
  | nan
deriving DecidableEq

/-- Python `<` on floats; any comparison against nan is false. -/
def PF.ltB : PF → PF → Bool
  | .fin a, .fin b => a < b
  | .fin _, .inf => true
  | .ninf, .fin _ => true
  | .ninf, .inf => true
  | _, _ => false

/-- Python `<=` on floats. -/
def PF.leB (a b : PF) : Bool := a.ltB b || (a == b && a != .nan)

/-- Python `abs` on floats. -/
def PF.abs : PF → PF
  | .fin q => .fin |q|
  | .inf => .inf
  | .ninf => .inf
  | .nan => .nan

/-- Python unary minus on floats. -/
def PF.neg : PF → PF
  | .fin q => .fin (-q)
  | .inf => .ninf
  | .ninf => .inf
  | .nan => .nan

/-- Multiply a float by a positive rational constant (prefix scaling, unit conversion). -/
def PF.scale (v : PF) (k : ℚ) : PF :=
  match v with
  | .fin q => .fin (q * k)
  | .inf => .inf
  | .ninf => .ninf
  | .nan => .nan

/-- Truncation toward zero, Python `int(x)` on a finite value. -/
def ratTrunc (q : ℚ) : ℤ :=
  if 0 ≤ q then ⌊q⌋ else ⌈q⌉

/-- Round half to even to an integer, as CPython `round` and `%f` do on the
exact value of the double. -/
def roundHEInt (q : ℚ) : ℤ :=
  let f := ⌊q⌋
  let r := q - (f : ℚ)
  if r < 1/2 then f
  else if (1/2 : ℚ) < r then f + 1
  else if f % 2 = 0 then f else f + 1

/-- Python `round(x, d)` on a finite value: half-even at `d` decimal digits. -/
def roundHE (q : ℚ) (d : ℕ) : ℚ :=
  (roundHEInt (q * 10 ^ d) : ℚ) / 10 ^ d

/-- Left-pad a numeral string with zeros to width `d`. -/
def padZeros (s : String) (d : ℕ) : String :=
  String.mk (List.replicate (d - s.length) '0') ++ s

/-- Python `'%.df' % q` for a finite value: fixed-point rendering with `d`
decimal digits, rounding half to even, no decimal point when `d = 0`. -/
def fmtF (q : ℚ) (d : ℕ) : String :=
  let m := (roundHEInt (|q| * 10 ^ d)).toNat
  let body :=
    if d = 0 then toString m
    else toString (m / 10 ^ d) ++ "." ++ padZeros (toString (m % 10 ^ d)) d
  (if q < 0 then "-" else "") ++ body

/-- Python `str.rstrip('0')`. -/
def rstrip0 (s : String) : String := s.dropRightWhile (fun c => c = '0')

/-- Python `str.rstrip('.')`. -/
def rstripDot (s : String) : String := s.dropRightWhile (fun c => c = '.')

/-- An ASCII apostrophe, used to render Python `%r` of strings. -/
def sq : String := String.singleton (Char.ofNat 39)

/-- Python `repr` of a short string as it appears in error messages (quoting
only; escape sequences never occur in the inputs considered here). -/
def pyRepr (s : String) : String := sq ++ s ++ sq

/-- Renders a numeric bound for `'%s' %` interpolation in bounds error
messages; integral bounds print like Python ints. -/
def pfBoundStr : PF → String
  | .fin q => if q.den = 1 then toString q.num else fmtF q 1
  | .inf => "inf"
  | .ninf => "-inf"
  | .nan => "nan"

/-- The whitespace class `\s` of the Python regex engine (ASCII portion; no
input below contains any other whitespace). -/
def isPySpace (c : Char) : Bool :=
  c = ' ' || c = '\t' || c = '\n' || c = '\r' || c = '\x0b' || c = '\x0c'

/-- Numeric value of a non-empty digit run. -/
def digitsVal (ds : List Char) : ℕ :=
  ds.foldl (fun a c => a * 10 + (c.toNat - '0'.toNat)) 0

/-- Group 1 of `_NumberMixin._regex` after the optional sign:
`(?:\d+\.\d+|\d+|\.\d+|inf)`, case-insensitive, returning the matched
magnitude and the rest of the input.  The alternation is deterministic here:
giving back digits (or the fraction) would leave the unit group with a digit,
which `[^\s0-9]*?` can never absorb, so the regex would fail anyway. -/
def parseMagnitude (cs : List Char) : Option (PF × List Char) :=
  let ds := cs.takeWhile Char.isDigit
  let rest := cs.dropWhile Char.isDigit
  if ds ≠ [] then
    match rest with
    | '.' :: rest2 =>
      let fs := rest2.takeWhile Char.isDigit
      if fs ≠ [] then
        some (.fin ((digitsVal ds : ℚ) + (digitsVal fs : ℚ) / 10 ^ fs.length),
              rest2.dropWhile Char.isDigit)
      else some (.fin (digitsVal ds), rest)
    | _ => some (.fin (digitsVal ds), rest)
  else
    match cs with
    | '.' :: rest2 =>
      let fs := rest2.takeWhile Char.isDigit
      if fs ≠ [] then
        some (.fin ((digitsVal fs : ℚ) / 10 ^ fs.length), rest2.dropWhile Char.isDigit)
      else none
    | c1 :: c2 :: c3 :: rest2 =>
      if c1.toLower = 'i' && c2.toLower = 'n' && c3.toLower = 'f' then some (.inf, rest2)
      else none
    | _ => none

/-- The magnitude-prefix alternation of `_NumberMixin._regex`, in source
order (binary and metric tokens interleaved), with the scaling factor from
`_prefixes_dct` keyed by the lowercased token. -/
def prefixTable : List (String × ℚ) :=
  [("Ti", 1024 ^ 4), ("T", 1000 ^ 4), ("Gi", 1024 ^ 3), ("G", 1000 ^ 3),
   ("Mi", 1024 ^ 2), ("M", 1000 ^ 2), ("Ki", 1024), ("k", 1000)]

/-- Case-insensitive token match at the head of the input. -/
def matchTokenCI (tok : List Char) (cs : List Char) : Option (List Char) :=
  match tok, cs with
  | [], rest => some rest
  | t :: ts, c :: rest => if c.toLower = t.toLower then matchTokenCI ts rest else none
  | _ :: _, [] => none

/-- First prefix token of `prefixTable` matching at the head of the input;
returns matched length, scaling factor, and the rest. -/
def matchPfx : List (String × ℚ) → List Char → Option (ℕ × ℚ × List Char)
  | [], _ => none
  | (tok, mult) :: rest, cs =>
    match matchTokenCI tok.toList cs with
    | some cs2 => some (tok.length, mult, cs2)
    | none => matchPfx rest cs

/-- Result of a successful `_NumberMixin._regex` match. -/
structure ParsedNum where
  value : PF
  pfxLen : ℕ
  mult : ℚ
  unit : String
deriving DecidableEq

/-- The full regex
`^([-+]?(?:\d+\.\d+|\d+|\.\d+|inf)) ?(Ti|T|Gi|G|Mi|M|Ki|k|)([^\s0-9]*?)$`
(case-insensitive).  The optional-space/prefix/unit tail is deterministic:
prefix tokens and the literal space contain no digits or whitespace, so
whenever the committed choice fails on a digit or whitespace character, every
backtracking alternative still has to cover that character with the unit
group and fails too. -/
def parseNumStr (s : String) : Option ParsedNum :=
  let cs := s.toList
  let (neg, cs) :=
    match cs with
    | '-' :: rest => (true, rest)
    | '+' :: rest => (false, rest)
    | rest => (false, rest)
  match parseMagnitude cs with
  | none => none
  | some (mag, rest) =>
    let mag := if neg then mag.neg else mag
    let rest := match rest with
      | ' ' :: rest2 => rest2
      | rest2 => rest2
    let (pfxLen, mult, rest) :=
      match matchPfx prefixTable rest with
      | some (n, m, rest2) => (n, m, rest2)
      | none => (0, 1, rest)
    if rest.all (fun c => !isPySpace c && !c.isDigit) then
      some ⟨mag, pfxLen, mult, String.mk rest⟩
    else none

/-- Which magnitude-prefix table a Number uses. -/
inductive PrefixKind where
  | metric
  | binary
deriving DecidableEq

/-- The configuration a Number remembers in `_args`. -/
structure NumArgs where
  unit : Option String
  prfx : PrefixKind
  hideUnit : Bool
  vmin : Option PF
  vmax : Option PF
  precise : Bool
deriving DecidableEq

/-- Whether a Number is the `Int` or the `Float` variant (its parent type). -/
inductive NumCls where
  | int
  | float
deriving DecidableEq

/-- A constructed `_NumberMixin` instance: variant, value, remembered `_args`. -/
structure Num where
  cls : NumCls
  val : PF
  args : NumArgs
deriving DecidableEq

/-- Python exceptions distinguished by the pipeline (`except ValueError`
catches only the first kind). -/
inductive PyErr where
  | valueError (msg : String)
  | overflowError
  | zeroDivisionError
deriving DecidableEq

/-- Message text of an exception, as `'%s' % e` renders it. -/
def pyErrMsg : PyErr → String
  | .valueError m => m
  | .overflowError => "cannot convert float infinity to integer"
  | .zeroDivisionError => "division by zero"

/-- The `value` argument of `_NumberMixin.__new__`: a plain number, a string
to parse, or an instance of the same family whose `_args` serve as defaults. -/
inductive NumInput where
  | lit (v : PF)
  | str (s : String)
  | typed (n : Num)

/-- The fixed `_NumberMixin.converters` table: `'B' -> 'b'` multiplies by 8,
`'b' -> 'B'` divides by 8; any other pair is absent. -/
def convertUnit (u target : String) (v : PF) : Option PF :=
  if u = "B" && target = "b" then some (v.scale 8)
  else if u = "b" && target = "B" then some (v.scale (1/8))
  else none

/-- Python `round` of a float to an integer: half-even on finite values,
`OverflowError` on infinities, `ValueError` on nan. -/
def pyRoundToInt : PF → Except PyErr ℤ
  | .fin q => .ok (roundHEInt q)
  | .inf => .error .overflowError
  | .ninf => .error .overflowError
  | .nan => .error (.valueError "cannot convert float NaN to integer")

/-- Shared tail of `_NumberMixin.__new__` after string parsing: unit
conversion, integer rounding, bounds validation, and `_args` capture. -/
def mkNumberTail (cls : NumCls) (value : PF) (unit : Option String)
    (convertTo : Option String) (pk : PrefixKind) (hu : Bool)
    (vmin vmax : Option PF) (precise : Bool) : Except PyErr Num := do
  let (value, unit) ←
    match convertTo with
    | none => pure (value, unit)
    | some ct =>
      if unit = some ct then pure (value, unit)
      else
        match unit with
        | none => pure (value, some ct)
        | some u =>
          match convertUnit u ct value with
          | some v => pure (v, some ct)
          | none => throw (.valueError ("Cannot convert " ++ u ++ " to " ++ ct))
  let value ←
    match cls with
    | .int => do
      let z ← pyRoundToInt value
      pure (PF.fin (z : ℚ))
    | .float => pure value
  match vmin, vmax with
  | some mn, _ =>
    if value.ltB mn then
      throw (.valueError ("Too small (minimum is " ++ pfBoundStr mn ++ ")"))
    else
      match vmax with
      | some mx =>
        if mx.ltB value then
          throw (.valueError ("Too big (maximum is " ++ pfBoundStr mx ++ ")"))
        else pure ⟨cls, value, ⟨unit, pk, hu, vmin, vmax, precise⟩⟩
      | none => pure ⟨cls, value, ⟨unit, pk, hu, vmin, vmax, precise⟩⟩
  | none, some mx =>
    if mx.ltB value then
      throw (.valueError ("Too big (maximum is " ++ pfBoundStr mx ++ ")"))
    else pure ⟨cls, value, ⟨unit, pk, hu, vmin, vmax, precise⟩⟩
  | none, none => pure ⟨cls, value, ⟨unit, pk, hu, vmin, vmax, precise⟩⟩

/-- `_NumberMixin.__new__`: defaults from a typed value, hardcoded defaults,
string parsing with prefix scaling, then the shared tail. -/
def mkNumber (cls : NumCls) (value : NumInput) (unit : Option String)
    (convertTo : Option String) (pfxArg : Option PrefixKind) (hideUnit : Option Bool)
    (vmin vmax : Option PF) (precise : Bool) : Except PyErr Num :=
  let (value, unit, pfxArg, hideUnit) :=
    match value with
    | .typed n =>
      (NumInput.lit n.val, unit <|> n.args.unit, pfxArg <|> some n.args.prfx,
       hideUnit <|> some n.args.hideUnit)
    | v => (v, unit, pfxArg, hideUnit)
  let pk := pfxArg.getD .metric
  let hu := hideUnit.getD false
  match value with
  | .str s =>
    match parseNumStr s with
    | none => throw (.valueError ("Not a number: " ++ pyRepr s))
    | some p =>
      let value := p.value.scale p.mult
      let unit := if p.unit ≠ "" then some p.unit else unit
      let pk := if p.pfxLen = 2 then .binary else if p.pfxLen = 1 then .metric else pk
      mkNumberTail cls value unit convertTo pk hu vmin vmax precise
  | .lit v => mkNumberTail cls v unit convertTo pk hu vmin vmax precise
  | .typed n => mkNumberTail cls n.val unit convertTo pk hu vmin vmax precise

/-- `Float(s)` with all options at their defaults. -/
def floatOfStr (s : String) : Except PyErr Num :=
  mkNumber .float (.str s) none none none none none none false

/-- `Float(v)` for a plain number with all options at their defaults. -/
def floatOfLit (v : PF) : Except PyErr Num :=
  mkNumber .float (.lit v) none none none none none none false

/-- `_pretty_float`: sign and the infinity glyph for infinite magnitude, `"0"`
for zero, otherwise adaptive fixed-point precision with trailing zeros
stripped in the 2- and 1-decimal branches.  On nan CPython raises `ValueError`
inside `int(n_abs)`; that is unreachable from every claim and rendered as a
sentinel here. -/
def prettyFloat : PF → String
  | .inf => "∞"
  | .ninf => "-∞"
  | .nan => "<ValueError: nan>"
  | .fin q =>
    if q = 0 then "0"
    else
      let a := |q|
      let r2 := roundHE a 2
      if r2 = (ratTrunc a : ℚ) then fmtF q 0
      else if r2 < 10 then rstrip0 (fmtF q 2)
      else if roundHE a 1 < 100 then rstrip0 (fmtF q 1)
      else fmtF q 0

/-- `_prefixes_binary` as (token, threshold-and-divisor) pairs, largest first. -/
def prefixesBinary : List (String × ℚ) :=
  [("Ti", 1024 ^ 4), ("Gi", 1024 ^ 3), ("Mi", 1024 ^ 2), ("Ki", 1024)]

/-- `_prefixes_metric` as (token, threshold-and-divisor) pairs, largest first. -/
def prefixesMetric : List (String × ℚ) :=
  [("T", 1000 ^ 4), ("G", 1000 ^ 3), ("M", 1000 ^ 2), ("k", 1000)]

/-- The table `self._prefixes` selected at construction time. -/
def tableOf : PrefixKind → List (String × ℚ)
  | .binary => prefixesBinary
  | .metric => prefixesMetric

/-- The `stringify` loop of `_NumberMixin.string`: first prefix whose
threshold does not exceed the absolute value divides the value; otherwise the
bare value is pretty-printed. -/
def stringifyLoop (q a : ℚ) : List (String × ℚ) → String
  | [] => prettyFloat (.fin q)
  | (tok, size) :: rest =>
    if size ≤ a then prettyFloat (.fin (q / size)) ++ tok
    else stringifyLoop q a rest

/-- Exponent of `p` in `n`. -/
def factorCount (p n : ℕ) : ℕ :=
  if h : 2 ≤ p ∧ 0 < n ∧ n % p = 0 then factorCount p (n / p) + 1 else 0
decreasing_by
  exact Nat.div_lt_self h.2.1 h.1

/-- Python `str(float)` restricted to values whose denominator is 10-smooth:
for those the shortest round-trip repr CPython prints equals the exact decimal
expansion (always with at least one fractional digit).  Other denominators are
unreachable from the claims and rendered as a sentinel. -/
def pyFloatRepr (q : ℚ) : String :=
  let d := max (factorCount 2 q.den) (factorCount 5 q.den)
  if (q * 10 ^ d).den = 1 then
    if d = 0 then toString q.num ++ ".0" else fmtF q d
  else "<non-decimal float>"

/-- `_NumberMixin.string`: the zero shortcut, infinite magnitudes, the precise
mode (parent-type repr with trailing zeros and dot stripped), and the default
prefix-scaled mode, each followed by the unit suffix when requested. -/
def Num.string (n : Num) (unitB precise : Bool) : String :=
  let unitStr := if unitB then n.args.unit.getD "" else ""
  if n.val = .fin 0 then "0"
  else if n.val.abs = .inf then prettyFloat n.val
  else
    match n.val with
    | .fin q =>
      if precise then
        (match n.cls with
         | .int => rstripDot (rstrip0 (toString (ratTrunc q)))
         | .float => rstripDot (rstrip0 (pyFloatRepr q))) ++ unitStr
      else stringifyLoop q |q| (tableOf n.args.prfx) ++ unitStr
    | v => prettyFloat v

/-- `__str__` via the `_str` partial bound in `__new__`:
`string(unit=not hide_unit, precise=precise)`. -/
def numString (n : Num) : String :=
  n.string (!n.args.hideUnit) n.args.precise

/-- The binary operators `_NumberMixin` overloads (`__divmod__` aside, whose
tuple result no claim mentions). -/
inductive BinOp where
  | add
  | sub
  | mul
  | truediv
  | floordiv
  | mod
  | pow
deriving DecidableEq

/-- The unary operators `_NumberMixin` overloads. -/
inductive UnOp where
  | floor
  | ceil
  | round
deriving DecidableEq

/-- Exact value of a binary operation on finite operands, total with junk at
division by zero (callers guard).  `pow` is taken at integer exponents; the
fractional-exponent case leaves the rationals and is modelled as an error in
`opPF`. -/
def binExact : BinOp → ℚ → ℚ → ℚ
  | .add, a, b => a + b
  | .sub, a, b => a - b
  | .mul, a, b => a * b
  | .truediv, a, b => a / b
  | .floordiv, a, b => (⌊a / b⌋ : ℚ)
  | .mod, a, b => a - b * (⌊a / b⌋ : ℚ)
  | .pow, a, b => a ^ b.num

/-- CPython float/int binary arithmetic on extended values.  Division by a
zero divisor raises for any numerator; nan otherwise propagates; the
infinite-operand conventions follow CPython (`5.0 // inf == 0.0`,
`-5.0 % inf == inf`, `inf // 2` is nan, ...).  A fractional or infinite
exponent leaves the rationals and is modelled as an error (no claim reaches
it; nan edge cases of `**` are likewise not distinguished). -/
def opPF : BinOp → PF → PF → Except PyErr PF
  | .add, x, y =>
    match x, y with
    | .nan, _ | _, .nan => .ok .nan
    | .fin a, .fin b => .ok (.fin (a + b))
    | .inf, .ninf | .ninf, .inf => .ok .nan
    | .inf, _ | _, .inf => .ok .inf
    | .ninf, _ | _, .ninf => .ok .ninf
  | .sub, x, y =>
    match x, y with
    | .nan, _ | _, .nan => .ok .nan
    | .fin a, .fin b => .ok (.fin (a - b))
    | .inf, .inf | .ninf, .ninf => .ok .nan
    | .inf, _ | _, .ninf => .ok .inf
    | .ninf, _ | _, .inf => .ok .ninf
  | .mul, x, y =>
    match x, y with
    | .nan, _ | _, .nan => .ok .nan
    | .fin a, .fin b => .ok (.fin (a * b))
    | .fin a, .inf | .inf, .fin a =>
      .ok (if a = 0 then .nan else if 0 < a then .inf else .ninf)
    | .fin a, .ninf | .ninf, .fin a =>
      .ok (if a = 0 then .nan else if 0 < a then .ninf else .inf)
    | .inf, .inf | .ninf, .ninf => .ok .inf
    | .inf, .ninf | .ninf, .inf => .ok .ninf
  | .truediv, x, y =>
    match y with
    | .fin b =>
      if b = 0 then .error .zeroDivisionError
      else
        match x with
        | .nan => .ok .nan
        | .fin a => .ok (.fin (a / b))
        | .inf => .ok (if 0 ≤ b then .inf else .ninf)
        | .ninf => .ok (if 0 ≤ b then .ninf else .inf)
    | .nan => .ok .nan
    | .inf =>
      match x with
      | .fin _ => .ok (.fin 0)
      | _ => .ok .nan
    | .ninf =>
      match x with
      | .fin _ => .ok (.fin 0)
      | _ => .ok .nan
  | .floordiv, x, y =>
    match y with
    | .fin b =>
      if b = 0 then .error .zeroDivisionError
      else
        match x with
        | .fin a => .ok (.fin (⌊a / b⌋ : ℚ))
        | _ => .ok .nan
    | .nan => .ok .nan
    | .inf =>
      match x with
      | .fin a => .ok (if 0 ≤ a then .fin 0 else .fin (-1))
      | _ => .ok .nan
    | .ninf =>
      match x with
      | .fin a => .ok (if a ≤ 0 then .fin 0 else .fin (-1))
      | _ => .ok .nan
  | .mod, x, y =>
    match y with
    | .fin b =>
      if b = 0 then .error .zeroDivisionError
      else
        match x with
        | .fin a => .ok (.fin (a - b * (⌊a / b⌋ : ℚ)))
        | _ => .ok .nan
    | .nan => .ok .nan
    | .inf =>
      match x with
      | .fin a => .ok (if 0 ≤ a then .fin a else .inf)
      | _ => .ok .nan
    | .ninf =>
      match x with
      | .fin a => .ok (if a ≤ 0 then .fin a else .ninf)
      | _ => .ok .nan
  | .pow, x, y =>
    match x, y with
    | .fin a, .fin b =>
      if b.den = 1 then
        if a = 0 ∧ b.num < 0 then .error .zeroDivisionError
        else .ok (.fin (a ^ b.num))
      else .error (.valueError "irrational power not modelled")
    | _, _ => .error (.valueError "infinite power not modelled")

/-- Whether the Python-level result of `op` is an `int` object: both parents
are `int` and the operation is int-preserving (`int.__truediv__` returns a
float, so does a negative integer power). -/
def binIsPyInt (selfCls otherCls : NumCls) (op : BinOp) (b : PF) : Bool :=
  selfCls = .int && otherCls = .int &&
  op != .truediv &&
  !(op = .pow && (match b with | .fin q => q.num < 0 | _ => false))

/-- Domain on which a binary operation on finite operands has an exact
rational value: nonzero divisors, and integer exponents that are nonnegative
when the base is zero. -/
def binDefined : BinOp → ℚ → ℚ → Prop
  | .truediv, _, b => b ≠ 0
  | .floordiv, _, b => b ≠ 0
  | .mod, _, b => b ≠ 0
  | .pow, a, b => b.den = 1 ∧ (a = 0 → 0 ≤ b.num)
  | _, _, _ => True

/-- Lines 433-439 of `_do_math`: `Int` when the result is an `int` object or
an integral finite float; the `int(result)` probe overflows on `-inf`. -/
def narrowCls (isPyInt : Bool) (v : PF) : Except PyErr NumCls :=
  if isPyInt then .ok .int
  else
    match v with
    | .fin q => .ok (if q.den = 1 then .int else .float)
    | .inf => .ok .float
    | .ninf => .error .overflowError
    | .nan => .ok .float

/-- Rebuild the result with the copied `_args`:
`result_cls(result, **self._args)`. -/
def rewrapResult (args : NumArgs) (isPyInt : Bool) (v : PF) : Except PyErr Num := do
  let cls ← narrowCls isPyInt v
  mkNumber cls (.lit v) args.unit none (some args.prfx) (some args.hideUnit)
    args.vmin args.vmax args.precise

/-- `_do_math` for a binary operator without the NotImplemented flip: the
positive-infinity shortcut, the parent-type operation, narrowing, and the
rewrap with `self._args`. -/
def doMathCore (self : Num) (op : BinOp) (other : Num) : Except PyErr Num :=
  if self.val = .inf then rewrapResult self.args false .inf
  else do
    let v ← opPF op self.val other.val
    rewrapResult self.args (binIsPyInt self.cls other.cls op other.val) v

/-- `_do_math` for a binary operator.  When `self` is the `Int` variant and
`other` the `Float` variant, `int.__op__` returns NotImplemented and the code
calls `other`'s overloaded method with the operands swapped; that inner call
returns a fully built Number of `other`, which the outer narrowing inspects
and `result_cls(result, **self._args)` re-wraps through the typed-value
branch of `__new__`. -/
def doMathBin (self : Num) (op : BinOp) (other : Num) : Except PyErr Num :=
  if self.val = .inf then rewrapResult self.args false .inf
  else if self.cls = .int && other.cls = .float then do
    let inner ← doMathCore other op self
    let cls ← narrowCls (inner.cls = .int) inner.val
    mkNumber cls (.typed inner) self.args.unit none (some self.args.prfx)
      (some self.args.hideUnit) self.args.vmin self.args.vmax self.args.precise
  else do
    let v ← opPF op self.val other.val
    rewrapResult self.args (binIsPyInt self.cls other.cls op other.val) v

/-- Value and int-ness of a unary operator on a finite value: `__floor__`,
`__ceil__` and no-argument `__round__` all return Python ints. -/
def unOpQ : UnOp → ℚ → ℤ
  | .floor, q => ⌊q⌋
  | .ceil, q => ⌈q⌉
  | .round, q => roundHEInt q

/-- `_do_math` for a unary operator: the positive-infinity shortcut, then the
parent-type operation (which raises on `-inf` and nan), narrowing, rewrap. -/
def doMathUn (self : Num) (op : UnOp) : Except PyErr Num :=
  if self.val = .inf then rewrapResult self.args false .inf
  else
    match self.val with
    | .fin q => rewrapResult self.args true (.fin (unOpQ op q : ℚ))
    | .ninf => .error .overflowError
    | .nan => .error (.valueError "cannot convert float NaN to integer")
    | .inf => rewrapResult self.args false .inf

/-- A value flowing through the `set` pipeline: a joined literal string, a
listified sequence, or a typed Number (a current setting value or a parsed
delta).  The non-Number string-based setting types (String, Bool, Option,
Path) and tuples are not `float`/`int` instances, which is all
`_get_operator` and `_adjust_value` inspect. -/
inductive CmdVal where
  | str (s : String)
  | listv (xs : List String)
  | num (n : Num)
deriving DecidableEq

/-- `SetCmdbase._stringify`: strings pass through, other iterables join with
a comma, Numbers print via `__str__`. -/
def stringifyCmd : CmdVal → String
  | .str s => s
  | .listv xs => String.intercalate ", " xs
  | .num n => numString n

/-- Python `str.strip()` over the pipeline's whitespace alphabet. -/
def pyStrip (s : String) : String :=
  String.mk (((s.toList.dropWhile isPySpace).reverse.dropWhile isPySpace).reverse)

/-- Modelled from the spec: `usertypes.Float` (module `stig/utils/usertypes.py`
is not under src; `_get_operator` is its caller).  The spec describes a single
Number type with the parsing grammar of §4.1, which is `stringables.Float`,
so parsing delegates to it with default options. -/
def usertypesFloat (s : String) : Except PyErr Num :=
  mkNumber .float (.str s) none none none none none none false

/-- Result of `SetCmdbase._get_operator`: either the untouched value, or a
detected operator together with the remainder parsed as a Number. -/
inductive GetOpResult where
  | noOp (v : CmdVal)
  | withOp (op : BinOp) (delta : Num)
deriving DecidableEq

/-- `SetCmdbase._get_operator`: on a string whose stripped form has at least
3 characters and starts with `+=`/`-=`, parse the remainder as a Number
(re-raising parse failures as `'%s: %r'`); every other value passes through
with no operator. -/
def getOperator (v : CmdVal) : Except PyErr GetOpResult :=
  match v with
  | .str s =>
    let stripped := pyStrip s
    if stripped.length ≥ 3 then
      if stripped.take 2 = "+=" then
        match usertypesFloat (stripped.drop 2) with
        | .ok n => .ok (.withOp .add n)
        | .error e =>
          .error (.valueError (pyErrMsg e ++ ": " ++ pyRepr (stripped.drop 2)))
      else if stripped.take 2 = "-=" then
        match usertypesFloat (stripped.drop 2) with
        | .ok n => .ok (.withOp .sub n)
        | .error e =>
          .error (.valueError (pyErrMsg e ++ ": " ++ pyRepr (stripped.drop 2)))
      else .ok (.noOp v)
    else .ok (.noOp v)
  | v => .ok (.noOp v)

/-- `Float(0)`, the replacement `_adjust_value` makes for a current value at
positive infinity. -/
def float0 : Num := ⟨.float, .fin 0, ⟨none, .metric, false, none, none, false⟩⟩

/-- `SetCmdbase._adjust_value`: when the current setting value is numeric,
apply the operator between it (with infinity replaced by `Float(0)`) and the
parsed delta; otherwise return the parsed delta unchanged. -/
def adjustValue (current : CmdVal) (op : BinOp) (delta : Num) : Except PyErr CmdVal :=
  match current with
  | .num n =>
    let cur := if n.val = .inf then float0 else n
    (doMathBin cur op delta).map .num
  | _ => .ok (.num delta)

/-- Lines 370-379 of `SetCmdbase.run`: apply the recorded operator; on a
`ValueError`, recompute the unbounded result from a copy of the current value
with min/max lifted to the infinities, purely to embed the attempted value in
the reported message.  `Num.copy` lives in the usertypes module that is not
under src; it is modelled from the spec as the same Number with `min`/`max`
replaced.  Non-ValueError exceptions propagate uncaught; the non-numeric
branch is unreachable because `_adjust_value` never raises there. -/
def applyOperator (name : String) (current : CmdVal) (op : BinOp) (delta : Num) :
    Except String CmdVal :=
  match adjustValue current op delta with
  | .ok v => .ok v
  | .error (.valueError msg) =>
    match current with
    | .num n =>
      let unbound : Num := { n with args := { n.args with vmin := some .ninf, vmax := some .inf } }
      match doMathBin unbound op delta with
      | .ok invalid => .error (name ++ " = " ++ numString invalid ++ ": " ++ msg)
      | .error e2 => .error (pyErrMsg e2)
    | _ => .error msg
  | .error e => .error (pyErrMsg e)

/-- Lines 363-379 of `SetCmdbase.run`: operator detection (reporting parse
failures as `'%s = %s: %s'` against the original value) followed by the
operator application. -/
def resolveValue (name : String) (current : CmdVal) (value : CmdVal) :
    Except String CmdVal :=
  match getOperator value with
  | .error e => .error (name ++ " = " ++ stringifyCmd value ++ ": " ++ pyErrMsg e)
  | .ok (.noOp v) => .ok v
  | .ok (.withOp op delta) => applyOperator name current op delta

/-- Python `str.strip('\n')`. -/
def stripNl (s : String) : String :=
  String.mk (((s.toList.dropWhile (· = '\n')).reverse.dropWhile (· = '\n')).reverse)

/-- `SetCmdbase._eval_cmd` after the subprocess returns: both captured
streams are stripped of newlines; a non-empty stripped stderr raises with
that text, otherwise the stripped stdout is the literal value.  The exit
code is never consulted. -/
def evalCmd (stdout stderr : String) (_exitCode : ℕ) : Except String String :=
  let out := stripNl stdout
  let err := stripNl stderr
  if err ≠ "" then .error err else .ok out

/-- Who owns a setting name in the combined namespace. -/
inductive SettingKind where
  | loc
  | rem
  | unknown
deriving DecidableEq

/-- Outcome of `ResetCmdbase.run`: error messages in emission order, the
names actually reset, and whether `CmdError` was raised at the end. -/
structure ResetResult where
  errors : List String
  wasReset : List String
  raised : Bool
deriving DecidableEq

/-- The loop body of `ResetCmdbase.run`.  `cfg.reset` belongs to the combined
settings facade that is not under src; modelled from the spec: it raises
`NotImplementedError` for remote-owned names and `KeyError` for unknown
names, and resets local names. -/
def resetGo (kind : String → SettingKind) : List String → List String × List String × Bool
  | [] => ([], [], true)
  | n :: rest =>
    let (rs, es, ok) := resetGo kind rest
    match kind n with
    | .loc => (n :: rs, es, ok)
    | .rem => (rs, ("Remote settings cannot be reset: " ++ n) :: es, false)
    | .unknown => (rs, ("Unknown setting: " ++ n) :: es, false)

/-- `ResetCmdbase.run`: process every name, aggregate the success flag, raise
one `CmdError` afterwards iff any name failed. -/
def resetRun (kind : String → SettingKind) (names : List String) : ResetResult :=
  let (rs, es, ok) := resetGo kind names
  ⟨es, rs, !ok⟩

/-- The error message the reset loop emits for one name, if any. -/
def resetMsg (kind : String → SettingKind) (n : String) : Option String :=
  match kind n with
  | .loc => none
  | .rem => some ("Remote settings cannot be reset: " ++ n)
  | .unknown => some ("Unknown setting: " ++ n)

/-- `DataCountConverter` state: target unit (`'b'`/`'B'` after the setter
shortens it) and target prefix. -/
structure DataCountConverter where
  unitS : String
  prfx : PrefixKind
deriving DecidableEq

/-- The `_short` map applied to a unit argument: `'bit' -> 'b'`,
`'byte' -> 'B'`, anything else unchanged. -/
def shortUnit (u : String) : String :=
  if u = "bit" then "b" else if u = "byte" then "B" else u

/-- Input to `DataCountConverter.__call__`: a plain number or an existing
Float instance. -/
inductive ConvIn where
  | raw (v : PF)
  | typed (n : Num)

/-- `DataCountConverter._ensure_unit_and_prefix`.  `num.unit` reads the unit
stored at construction; the property itself lives in the part of the Number
class that is not under src and is modelled from the spec (a Number
"additionally carries `unit`"). -/
def ensureUnitAndPrefix (conv : DataCountConverter) (n : Num) : Except PyErr Num :=
  let unitGiven :=
    match n.args.unit with
    | some s => if s = "" then conv.unitS else s
    | none => conv.unitS
  if unitGiven = "bit" ∨ unitGiven = "byte" ∨ unitGiven = "b" ∨ unitGiven = "B" then
    mkNumber .float (.typed n) none (some conv.unitS) (some conv.prfx) none none none false
  else
    .error (.valueError ("Unit must be " ++ pyRepr "b" ++ " (bit) or " ++ pyRepr "B" ++
      " (byte), not " ++ pyRepr unitGiven))

deriving instance DecidableEq for Except

/-- `String.__new__`: length validation against `minlen`/`maxlen` (checked in
that source order: too-long first); the value itself is unchanged and
`__str__` is the inherited identity. -/
def mkString (value : String) (minlen maxlen : Option PF) : Except PyErr String :=
  let len : PF := .fin (value.length : ℚ)
  if (match maxlen with | some mx => mx.ltB len | none => false) then
    .error (.valueError ("Too long (maximum length is " ++
      (match maxlen with | some mx => pfBoundStr mx | none => "") ++ ")"))
  else if (match minlen with | some mn => len.ltB mn | none => false) then
    .error (.valueError ("Too short (minimum length is " ++
      (match minlen with | some mn => pfBoundStr mn | none => "") ++ ")"))
  else .ok value

/-- `Bool.__new__` with its configurable literal token sets: the stored
string is the first token of the matching set, paired with the boolean it
evaluates to in boolean context. -/
def mkBool (value : String) (ts fs : List String) : Except PyErr (String × Bool) :=
  if value ∈ ts then .ok (ts.headD "", true)
  else if value ∈ fs then .ok (fs.headD "", false)
  else .error (.valueError ("Not a boolean value: " ++ pyRepr value))

/-- The default truthy literals of `Bool`. -/
def defaultTrue : List String := ["enabled", "yes", "on", "true", "1"]

/-- The default falsy literals of `Bool`. -/
def defaultFalse : List String := ["disabled", "no", "off", "false", "0"]

/-- `str.join`: concatenate with the separator between consecutive items
(`sep.join(items)`). -/
def pyJoin (sep : String) : List String → String
  | [] => ""
  | [s] => s
  | s :: rest => s ++ sep ++ pyJoin sep rest

/-- `aliases.get(value, value)` over an association list: the dictionary
lookup behind `_resolve_alias` (its `hash(value)` guard never fails for the
string and integer values modelled here). -/
def alistGet {α β : Type} [DecidableEq α] : List (α × β) → α → Option β
  | [], _ => none
  | (k, w) :: rest, v => if k = v then some w else alistGet rest v

/-- `_resolve_alias`: replace the value by its alias target, if any. -/
def resolveAlias {α : Type} [DecidableEq α] (aliases : List (α × α)) (v : α) : α :=
  match alistGet aliases v with
  | some w => w
  | none => v

/-- `Option.__new__`: resolve the alias once, then require membership in
`options`; the stored string is the resolved value. -/
def mkOption (value : String) (options : List String) (aliases : List (String × String)) :
    Except PyErr String :=
  let v := resolveAlias aliases value
  if v ∈ options then .ok v
  else .error (.valueError ("Not one of: " ++ pyJoin ", " options))

/-- A Python value held in a `Tuple`: the string items produced by parsing
and aliasing, or a non-string item passed through `normalize` unchanged (an
integer here). -/
inductive PyItem where
  | str (s : String)
  | intv (z : ℤ)
deriving DecidableEq

/-- `str(item)` for tuple items. -/
def pyItemStr : PyItem → String
  | .str s => s
  | .intv z => toString z

/-- `str.split(sep)` on character lists: non-overlapping occurrences found
left to right.  The fuel argument (any bound on the input length) makes the
recursion structural.  Python raises on an empty separator; here the input
comes back as a single piece. -/
def pySplitCh (sep : List Char) : ℕ → List Char → List (List Char)
  | _, [] => [[]]
  | 0, c :: cs => [c :: cs]
  | fuel + 1, c :: cs =>
    if !sep.isEmpty && sep.isPrefixOf (c :: cs) then
      [] :: pySplitCh sep fuel (cs.drop (sep.length - 1))
    else
      match pySplitCh sep fuel cs with
      | [] => [[c]]
      | piece :: t => (c :: piece) :: t

/-- `str.split(sep)`. -/
def pySplit (sep s : String) : List String :=
  (pySplitCh sep.data s.data.length s.data).map (fun l => String.mk l)

/-- `Tuple.__new__`'s `normalize`: split strings on the stripped separator
and strip each piece; non-strings pass through as single items. -/
def tupleNormalize (sep : String) : PyItem → List PyItem
  | .str s => (pySplit (pyStrip sep) s).map (fun t => .str (pyStrip t))
  | v => [v]

/-- The first-occurrence deduplication filter of `Tuple.__new__` (the
`_seen` set, kept as a list). -/
def dedupGo (seen : List PyItem) : List PyItem → List PyItem
  | [] => []
  | x :: xs => if x ∈ seen then dedupGo seen xs else x :: dedupGo (x :: seen) xs

/-- The item pipeline of `Tuple.__new__`: normalize every argument, resolve
aliases (only when the alias dict is non-empty), deduplicate on demand. -/
def tupleItems (value : List PyItem) (sep : String) (aliases : List (PyItem × PyItem))
    (dedup : Bool) : List PyItem :=
  let items := (value.map (tupleNormalize sep)).flatten
  let items := if aliases.isEmpty then items else items.map (resolveAlias aliases)
  if dedup then dedupGo [] items else items

/-- `Tuple.__new__`: run the item pipeline, then validate against `options`,
joining the invalid items' string forms with the full separator in the
error message. -/
def mkTuple (value : List PyItem) (sep : String) (options : Option (List PyItem))
    (aliases : List (PyItem × PyItem)) (dedup : Bool) : Except PyErr (List PyItem) :=
  let items := tupleItems value sep aliases dedup
  match options with
  | some opts =>
    let invalid := items.filter (fun i => decide (i ∉ opts))
    if invalid.isEmpty then .ok items
    else .error (.valueError ("Invalid option" ++ (if invalid.length ≠ 1 then "s" else "") ++
      ": " ++ pyJoin sep (invalid.map pyItemStr)))
  | none => .ok items

/-- `Tuple.__str__`: join the items' string forms with the stored
separator. -/
def tupleStr (items : List PyItem) (sep : String) : String :=
  pyJoin sep (items.map pyItemStr)

/-- POSIX `os.path.normpath` component processing: `''` and `'.'` vanish,
`'..'` pops the last kept component unless the path is relative with nothing
kept yet or the last kept component is itself `'..'` (`slashes` is the
`initial_slashes` count, truthy for absolute paths); the accumulator is kept
reversed, so `new_comps[-1]` is its head. -/
def normComps (slashes : ℕ) (acc : List String) : List String → List String
  | [] => acc.reverse
  | comp :: rest =>
    if comp = "" ∨ comp = "." then normComps slashes acc rest
    else if comp ≠ ".." ∨ (slashes = 0 ∧ acc = []) ∨ acc.head? = some ".." then
      normComps slashes (comp :: acc) rest
    else
      match acc with
      | _ :: accT => normComps slashes accT rest
      | [] => normComps slashes acc rest

/-- POSIX `os.path.normpath`: empty paths become `'.'`, exactly two leading
slashes are preserved (one and three or more collapse to one), components
are normalized and rejoined. -/
def normpath (p : String) : String :=
  if p = "" then "."
  else
    let slashes : ℕ :=
      match p.data with
      | '/' :: '/' :: '/' :: _ => 1
      | '/' :: '/' :: _ => 2
      | '/' :: _ => 1
      | _ => 0
    let path := String.mk (List.replicate slashes '/') ++
      pyJoin "/" (normComps slashes [] (pySplit "/" p))
    if path = "" then "." else path

/-- POSIX `os.path.expanduser`, parameterized by the `HOME` environment
variable and the `pwd` home-directory lookup: a leading `~` expands to
`HOME`, `~user` to the user's home directory (the path comes back unchanged
when the lookup fails), trailing slashes are stripped from the home
directory, and `/` results when everything cancels. -/
def expanduser (home : String) (userDir : String → Option String) (p : String) : String :=
  match p.data with
  | '~' :: rest =>
    let name := rest.takeWhile (fun c => c != '/')
    let tail := rest.dropWhile (fun c => c != '/')
    let uh : Option (List Char) :=
      if name.isEmpty then some home.data
      else (userDir (String.mk name)).map String.data
    match uh with
    | none => p
    | some u =>
      let us := (u.reverse.dropWhile (fun c => c == '/')).reverse
      if (us ++ tail).isEmpty then "/" else String.mk (us ++ tail)
  | _ => p

/-- `Path.__new__`: normalize, expand the user directory, then optionally
require existence (the filesystem query is a parameter). -/
def mkPath (home : String) (userDir : String → Option String) (existsF : String → Bool)
    (value : String) (mustexist : Bool) : Except PyErr String :=
  let v := expanduser home userDir (normpath value)
  if mustexist && !existsF v then .error (.valueError "No such file or directory")
  else .ok v

/-- `Path.__str__`: abbreviate a leading `HOME` to `~` — a plain character
prefix test with no path-separator boundary. -/
def pathStr (home p : String) : String :=
  if home.data.isPrefixOf p.data then String.mk ('~' :: p.data.drop home.data.length)
  else p

/-- `DataCountConverter.__call__`: shorten the unit argument, wrap untyped
input as a Float in the source unit (defaulting to the configured unit),
then convert to the configured unit and prefix. -/
def convCall (conv : DataCountConverter) (num : ConvIn) (unitArg : Option String) :
    Except PyErr Num := do
  let u := unitArg.map shortUnit
  let n ←
    match num with
    | .typed n => pure n
    | .raw v =>
      let srcUnit := match u with
        | some s => if s = "" then conv.unitS else s
        | none => conv.unitS
      mkNumber .float (.lit v) (some srcUnit) none (some conv.prfx) none none none false
  ensureUnitAndPrefix conv n

/-- The `_args` record of a Number built with every option at its default. -/
def defArgs : NumArgs := ⟨none, .metric, false, none, none, false⟩

/-- Composition used by the round-trip property: re-parse the canonical
string form of a parsed Float with the same constructor and options. -/
def floatRoundTrip (raw : String) : Except PyErr Num :=
  (floatOfStr raw).bind (fun a => floatOfStr (numString a))

/-- `Int` constructed from a raw string with every option at its default. -/
def intOfStr (s : String) : Except PyErr Num :=
  mkNumber .int (.str s) none none none none none none false

/-- Round trip of the canonical string form for the `Int` variant. -/
def intRoundTrip (raw : String) : Except PyErr Num :=
  (intOfStr raw).bind (fun a => intOfStr (numString a))

/-!
## Claims

Each claim of the specification is settled by one theorem below (with a
counterexample theorem where the claim as stated fails, and a witness theorem
where the main theorem carries hypotheses).
-/

/-- A list is a Boolean prefix of itself followed by anything. -/
theorem isPrefixOf_self_app (l t : List Char) : l.isPrefixOf (l ++ t) = true := by
  induction l with
  | nil => simp [List.isPrefixOf]
  | cons c cs ih => simp [List.isPrefixOf, ih]

/-- `expanduser` leaves any path not starting with `~` unchanged. -/
theorem expanduser_no_tilde (home : String) (ud : String → Option String) (p : String)
    (h : p.data.head? ≠ some '~') : expanduser home ud p = p := by
  unfold expanduser
  split
  · rename_i rest heq
    exact absurd (show p.data.head? = some '~' by rw [heq]; rfl) h
  · rfl

/-- The splitting fuel only needs to bound the input length. -/
theorem pySplitCh_fuel (sep : List Char) :
    ∀ (fuel₁ fuel₂ : ℕ) (x : List Char), x.length ≤ fuel₁ → x.length ≤ fuel₂ →
      pySplitCh sep fuel₁ x = pySplitCh sep fuel₂ x := by
  intro fuel₁
  induction fuel₁ with
  | zero =>
    intro fuel₂ x h1 _
    have hx : x = [] := List.eq_nil_of_length_eq_zero (Nat.le_zero.mp h1)
    subst hx
    cases fuel₂ <;> rfl
  | succ f ih =>
    intro fuel₂ x h1 h2
    cases x with
    | nil => cases fuel₂ <;> rfl
    | cons c cs =>
      cases fuel₂ with
      | zero => simp at h2
      | succ f2 =>
        simp only [pySplitCh]
        simp only [List.length_cons] at h1 h2
        by_cases hc : (!sep.isEmpty && sep.isPrefixOf (c :: cs)) = true
        · rw [if_pos hc, if_pos hc]
          have hd := List.length_drop (sep.length - 1) cs
          rw [ih f2 _ (by omega) (by omega)]
        · rw [if_neg hc, if_neg hc]
          rw [ih f2 cs (by omega) (by omega)]

/-- A piece containing no occurrence of the single-character separator
comes back whole. -/
theorem pySplitCh_single_none (ch : Char) :
    ∀ (x : List Char) (fuel : ℕ), x.length ≤ fuel → ch ∉ x →
      pySplitCh [ch] fuel x = [x] := by
  intro x
  induction x with
  | nil => intro fuel _ _; cases fuel <;> rfl
  | cons c cs ih =>
    intro fuel hf hx
    cases fuel with
    | zero => simp at hf
    | succ f =>
      have hcc : ¬ ch = c := fun h => hx (h ▸ List.mem_cons_self c cs)
      simp only [pySplitCh]
      rw [if_neg (by simp [List.isPrefixOf, hcc])]
      rw [ih f (by simp only [List.length_cons] at hf; omega)
        (fun h => hx (List.mem_cons_of_mem c h))]

/-- Splitting on a single-character separator peels off a separator-free
piece at the front. -/
theorem pySplitCh_single_app (ch : Char) :
    ∀ (x rest : List Char) (fuel : ℕ), (x ++ ch :: rest).length ≤ fuel → ch ∉ x →
      pySplitCh [ch] fuel (x ++ ch :: rest) = x :: pySplitCh [ch] rest.length rest := by
  intro x
  induction x with
  | nil =>
    intro rest fuel hf _
    cases fuel with
    | zero => simp at hf
    | succ f =>
      simp only [List.nil_append, pySplitCh]
      rw [if_pos (by simp [List.isPrefixOf])]
      rw [show rest.drop (([ch] : List Char).length - 1) = rest from rfl]
      rw [pySplitCh_fuel [ch] f rest.length rest
        (by simp only [List.nil_append, List.length_cons] at hf; omega) le_rfl]
  | cons c cs ih =>
    intro rest fuel hf hx
    cases fuel with
    | zero => simp at hf
    | succ f =>
      have hcc : ¬ ch = c := fun h => hx (h ▸ List.mem_cons_self c _)
      simp only [List.cons_append, pySplitCh, List.append_eq]
      rw [if_neg (by simp [List.isPrefixOf, hcc])]
      rw [ih rest f (by simp only [List.cons_append, List.length_cons] at hf; omega)
        (fun h => hx (List.mem_cons_of_mem c h))]

/-- Character-level form of the split-of-join recovery, generalized over a
separator-free residue `pre` glued to the first piece. -/
theorem pySplitCh_join :
    ∀ (l : List String), (∀ s ∈ l, (',' : Char) ∉ s.data) →
      ∀ (pre : List Char), (',' : Char) ∉ pre →
      ∀ (fuel : ℕ), (pre ++ (pyJoin ", " l).data).length ≤ fuel →
      pySplitCh [','] fuel (pre ++ (pyJoin ", " l).data) =
        match l with
        | [] => [pre]
        | f :: rest => (pre ++ f.data) :: rest.map (fun s => ' ' :: s.data) := by
  intro l
  induction l with
  | nil =>
    intro _ pre hpre fuel hf
    have hf2 : (pre ++ ([] : List Char)).length ≤ fuel := hf
    rw [List.append_nil] at hf2
    show pySplitCh [','] fuel (pre ++ ([] : List Char)) = [pre]
    rw [List.append_nil]
    exact pySplitCh_single_none ',' pre fuel hf2 hpre
  | cons f rest ih =>
    intro h pre hpre fuel hf
    cases rest with
    | nil =>
      show pySplitCh [','] fuel (pre ++ f.data) = [pre ++ f.data]
      refine pySplitCh_single_none ',' _ fuel hf ?_
      intro hm
      rcases List.mem_append.mp hm with hm | hm
      · exact hpre hm
      · exact h f (List.mem_cons_self f _) hm
    | cons g rest2 =>
      have hdata : (pyJoin ", " (f :: g :: rest2)).data =
          f.data ++ ',' :: ' ' :: (pyJoin ", " (g :: rest2)).data := by
        rw [show pyJoin ", " (f :: g :: rest2) = f ++ ", " ++ pyJoin ", " (g :: rest2) from rfl,
          String.data_append, String.data_append, List.append_assoc]
        rfl
      rw [hdata] at hf ⊢
      rw [show pre ++ (f.data ++ ',' :: ' ' :: (pyJoin ", " (g :: rest2)).data) =
          (pre ++ f.data) ++ ',' :: (' ' :: (pyJoin ", " (g :: rest2)).data) from by
        simp [List.append_assoc]] at hf ⊢
      rw [pySplitCh_single_app ',' (pre ++ f.data) _ fuel hf ?hm]
      case hm =>
        intro hm
        rcases List.mem_append.mp hm with hm | hm
        · exact hpre hm
        · exact h f (List.mem_cons_self f _) hm
      show _ = (pre ++ f.data) :: (g :: rest2).map (fun s => ' ' :: s.data)
      congr 1
      have hrec := ih (fun s hs => h s (List.mem_cons_of_mem f hs)) [' '] (by simp)
        ((' ' :: (pyJoin ", " (g :: rest2)).data).length) (by simp)
      simpa using hrec

/-- `", ".join(f :: rest).split(",")` gives the first piece whole and each
later piece with one leading space. -/
theorem pySplit_join (f : String) (rest : List String)
    (h : ∀ s ∈ f :: rest, (',' : Char) ∉ s.data) :
    pySplit "," (pyJoin ", " (f :: rest)) =
      f :: rest.map (fun s => String.mk (' ' :: s.data)) := by
  have hj := pySplitCh_join (f :: rest) h [] (by simp)
    ((pyJoin ", " (f :: rest)).data.length) (by simp)
  simp only [List.nil_append] at hj
  show (pySplitCh [','] (pyJoin ", " (f :: rest)).data.length
    (pyJoin ", " (f :: rest)).data).map (fun l => String.mk l) = _
  rw [hj]
  simp only [List.map_cons, List.map_map]
  rfl

/-- Stripping eats a single leading space. -/
theorem pyStrip_space_cons (s : String) : pyStrip (String.mk (' ' :: s.data)) = pyStrip s := by
  unfold pyStrip
  rw [show (String.mk (' ' :: s.data)).toList = ' ' :: s.data from rfl, List.dropWhile_cons,
    if_pos (show isPySpace ' ' = true from rfl)]
  rfl

/-- The deduplication filter is the identity on duplicate-free input. -/
theorem dedupGo_of_nodup :
    ∀ (l : List PyItem) (seen : List PyItem), l.Nodup → (∀ x ∈ l, x ∉ seen) →
      dedupGo seen l = l := by
  intro l
  induction l with
  | nil => intro seen _ _; rfl
  | cons x xs ih =>
    intro seen hnd hs
    show (if x ∈ seen then dedupGo seen xs else x :: dedupGo (x :: seen) xs) = x :: xs
    rw [if_neg (hs x (List.mem_cons_self x xs))]
    congr 1
    refine ih (x :: seen) (List.Nodup.of_cons hnd) ?_
    intro y hy hmem
    rcases List.mem_cons.mp hmem with h1 | h1
    · exact (List.nodup_cons.mp hnd).1 (h1 ▸ hy)
    · exact hs y (List.mem_cons_of_mem x hy) h1

/-- A successfully built `Tuple` with an `options` whitelist has no invalid
items. -/
theorem mkTuple_ok_filter (vals : List PyItem) (sep : String) (opts : List PyItem)
    (aliases : List (PyItem × PyItem)) (dedup : Bool) (items : List PyItem)
    (h : mkTuple vals sep (some opts) aliases dedup = .ok items) :
    (items.filter (fun i => decide (i ∉ opts))).isEmpty = true := by
  simp only [mkTuple] at h
  set Y := tupleItems vals sep aliases dedup with hY
  split at h
  · rename_i hc
    rw [Except.ok.inj h] at hc
    exact hc
  · exact absurd h (by simp)

/-- C1 (counterexample).  The round-trip `Type(str(Type(raw))) == Type(raw)`
fails for `Float`: `Float("1234")` is 1234, its canonical string form is
`"1.23k"` (pretty-printing rounds to at most three significant digits), and
re-parsing that form gives 1230 ≠ 1234.  It also fails for `Bool` with
overlapping token sets (`Bool("b", true=("x","a"), false=("a","b"))` stores
`"a"`, which re-parses as the truthy `"x"`), for `Path` at a home-prefix
collision (`Path("/rootx")` with `HOME=/root` prints `"~x"`, which re-parses
— through the failed user lookup — as `"~x"`), for `Tuple` with a non-string
item (`Tuple(5)` prints `"5"`, which re-parses as the string item), with no
items (the empty join `""` re-parses as one empty-string item), or with a
chained alias (`a→b`, `b→c`: the stored `"b"` re-parses to `"c"`), and for
`Option` with a chained alias (the stored `"b"` resolves to `"c"` on
re-parse and raises). -/
theorem c1_roundtrip_cex :
    (floatOfStr "1234" = .ok ⟨.float, .fin 1234, defArgs⟩ ∧
     numString ⟨.float, .fin 1234, defArgs⟩ = "1.23k" ∧
     floatRoundTrip "1234" = .ok ⟨.float, .fin 1230, defArgs⟩ ∧
     floatRoundTrip "1234" ≠ floatOfStr "1234") ∧
    (mkBool "b" ["x", "a"] ["a", "b"] = .ok ("a", false) ∧
     mkBool "a" ["x", "a"] ["a", "b"] = .ok ("x", true) ∧
     ("x" : String) ≠ "a") ∧
    (mkPath "/root" (fun _ => none) (fun _ => false) "/rootx" false = .ok "/rootx" ∧
     pathStr "/root" "/rootx" = "~x" ∧
     mkPath "/root" (fun _ => none) (fun _ => false) "~x" false = .ok "~x" ∧
     ("~x" : String) ≠ "/rootx") ∧
    (mkTuple [.intv 5] ", " none [] false = .ok [.intv 5] ∧
     tupleStr [.intv 5] ", " = "5" ∧
     mkTuple [.str "5"] ", " none [] false = .ok [.str "5"] ∧
     [PyItem.str "5"] ≠ [PyItem.intv 5]) ∧
    (mkTuple [] ", " none [] false = .ok [] ∧
     tupleStr [] ", " = "" ∧
     mkTuple [.str ""] ", " none [] false = .ok [.str ""] ∧
     [PyItem.str ""] ≠ ([] : List PyItem)) ∧
    (mkTuple [.str "a"] ", " none [(.str "a", .str "b"), (.str "b", .str "c")] false =
       .ok [.str "b"] ∧
     tupleStr [.str "b"] ", " = "b" ∧
     mkTuple [.str "b"] ", " none [(.str "a", .str "b"), (.str "b", .str "c")] false =
       .ok [.str "c"] ∧
     [PyItem.str "c"] ≠ [PyItem.str "b"]) ∧
    (mkOption "a" ["b"] [("a", "b"), ("b", "c")] = .ok "b" ∧
     mkOption "b" ["b"] [("a", "b"), ("b", "c")] =
       .error (.valueError "Not one of: b")) := by
  refine ⟨⟨?_, ?_, ?_, ?_⟩, ?_, ⟨?_, ?_, ?_, ?_⟩, ?_, ?_, ?_, ?_⟩ <;>
    with_unfolding_all decide

/-- C1 (amended).  The round-trip holds for `String` (construction is the
identity on the value); for `Bool` over arbitrary configured token sets — a
truthy input re-parses to the stored first truthy token unconditionally, a
falsy input whenever the first falsy token is not itself in the truthy set
(the counterexample shows overlapping sets failing); for `Path` when the
canonical path is a fixed point of normalization and either does not start
with the home string (nor with `~`), or extends the home directory at a
path-separator boundary (the counterexample's `"/rootx"` has no such
boundary); for `Tuple` with the default separator `", "` when construction
yields a nonempty tuple of stripped, comma-free string items each fixed by
the alias map, duplicate-free when `dedup` is set (the counterexample shows
the non-string, empty and chained-alias cases failing); for `Option`
whenever the alias map fixes the stored resolved value (the counterexample
shows a chained alias failing); and for Numbers whose canonical string form
renders the value exactly — integral values below 100 for both the `Float`
and the `Int` variant, and the spec's own example `Float("2Mi")`; in
general Number pretty-printing rounds to at most three significant digits,
so the round trip fails (see the counterexample). -/
theorem c1_roundtrip_amended :
    (∀ (s : String) (mn mx : Option PF) (v : String),
      mkString s mn mx = .ok v → mkString v mn mx = .ok v) ∧
    (∀ (ts fs : List String) (raw : String), raw ∈ ts →
      mkBool raw ts fs = .ok (ts.headD "", true) ∧
      mkBool (ts.headD "") ts fs = .ok (ts.headD "", true)) ∧
    (∀ (ts fs : List String) (raw : String), raw ∉ ts → raw ∈ fs → fs.headD "" ∉ ts →
      mkBool raw ts fs = .ok (fs.headD "", false) ∧
      mkBool (fs.headD "") ts fs = .ok (fs.headD "", false)) ∧
    (∀ (home s : String) (ud : String → Option String) (ef : String → Bool),
      home.data.isPrefixOf s.data = false → s.data.head? ≠ some '~' →
      normpath s = s →
      mkPath home ud ef (pathStr home s) false = .ok s) ∧
    (∀ (home : String) (r : List Char) (ud : String → Option String) (ef : String → Bool),
      (home.data.reverse.dropWhile (fun c => c == '/')).reverse = home.data →
      normpath (String.mk ('~' :: '/' :: r)) = String.mk ('~' :: '/' :: r) →
      mkPath home ud ef (pathStr home (String.mk (home.data ++ '/' :: r))) false =
        .ok (String.mk (home.data ++ '/' :: r))) ∧
    (∀ (vals : List PyItem) (strs : List String) (options : Option (List PyItem))
      (aliases : List (PyItem × PyItem)) (dedup : Bool),
      mkTuple vals ", " options aliases dedup = .ok (strs.map PyItem.str) →
      strs ≠ [] →
      (∀ s ∈ strs, pyStrip s = s ∧ (',' : Char) ∉ s.data ∧
        resolveAlias aliases (PyItem.str s) = .str s) →
      (dedup = true → strs.Nodup) →
      mkTuple [.str (tupleStr (strs.map PyItem.str) ", ")] ", " options aliases dedup =
        .ok (strs.map PyItem.str)) ∧
    (∀ (value : String) (options : List String) (aliases : List (String × String)) (v : String),
      mkOption value options aliases = .ok v → resolveAlias aliases v = v →
      mkOption v options aliases = .ok v) ∧
    (∀ n : Fin 100, floatRoundTrip (toString n.val) = floatOfStr (toString n.val)) ∧
    (∀ n : Fin 100, intRoundTrip (toString n.val) = intOfStr (toString n.val)) ∧
    floatRoundTrip "2Mi" = floatOfStr "2Mi" := by
  refine ⟨?_, ?_, ?_, ?_, ?_, ?_, ?_, ?_, ?_, ?_⟩
  · intro s mn mx v h
    have hv : v = s := by
      simp only [mkString] at h
      split_ifs at h
      exact (Except.ok.inj h).symm
    subst hv
    exact h
  · intro ts fs raw hraw
    have hmem : ts.headD "" ∈ ts := by
      cases ts with
      | nil => exact absurd hraw (List.not_mem_nil raw)
      | cons x t => exact List.mem_cons_self x t
    exact ⟨by simp only [mkBool]; rw [if_pos hraw],
      by simp only [mkBool]; rw [if_pos hmem]⟩
  · intro ts fs raw hnt hraw hhd
    have hmem : fs.headD "" ∈ fs := by
      cases fs with
      | nil => exact absurd hraw (List.not_mem_nil raw)
      | cons x t => exact List.mem_cons_self x t
    exact ⟨by simp only [mkBool]; rw [if_neg hnt, if_pos hraw],
      by simp only [mkBool]; rw [if_neg hhd, if_pos hmem]⟩
  · intro home s ud ef hpre htilde hnorm
    have hps : pathStr home s = s := by
      unfold pathStr
      rw [if_neg (by simp [hpre])]
    rw [hps]
    simp only [mkPath]
    rw [hnorm, expanduser_no_tilde home ud s htilde]
    rfl
  · intro home r ud ef hslash hnorm
    have hps : pathStr home (String.mk (home.data ++ '/' :: r)) =
        String.mk ('~' :: '/' :: r) := by
      unfold pathStr
      rw [if_pos (isPrefixOf_self_app home.data ('/' :: r))]
      show String.mk ('~' :: (home.data ++ '/' :: r).drop home.data.length) = _
      rw [List.drop_left]
    have hne : (home.data ++ '/' :: r).isEmpty = false := by
      cases hd : home.data <;> rfl
    have hexp : expanduser home ud (String.mk ('~' :: '/' :: r)) =
        if (((home.data.reverse.dropWhile (fun c => c == '/')).reverse ++ '/' :: r).isEmpty)
        then "/"
        else String.mk ((home.data.reverse.dropWhile (fun c => c == '/')).reverse ++
          '/' :: r) := rfl
    rw [hps]
    simp only [mkPath]
    rw [hnorm, hexp, hslash, hne]
    rfl
  · intro vals strs options aliases dedup h hne hstr hnd
    have hts : tupleStr (strs.map PyItem.str) ", " = pyJoin ", " strs := by
      unfold tupleStr
      congr 1
      rw [List.map_map]
      have hcg : strs.map (pyItemStr ∘ PyItem.str) = strs.map (fun x => x) :=
        List.map_congr_left (fun a _ => rfl)
      rw [hcg, List.map_id']
    have hnorm : ([PyItem.str (tupleStr (strs.map PyItem.str) ", ")].map
        (tupleNormalize ", ")).flatten = strs.map PyItem.str := by
      rw [hts]
      show tupleNormalize ", " (.str (pyJoin ", " strs)) ++ [] = _
      rw [List.append_nil]
      show (pySplit (pyStrip ", ") (pyJoin ", " strs)).map
        (fun t => PyItem.str (pyStrip t)) = strs.map PyItem.str
      rw [show pyStrip ", " = "," from rfl]
      obtain ⟨f, rest, rfl⟩ : ∃ f rest, strs = f :: rest := by
        cases strs with
        | nil => exact absurd rfl hne
        | cons f rest => exact ⟨f, rest, rfl⟩
      rw [pySplit_join f rest (fun s hs => (hstr s hs).2.1)]
      show PyItem.str (pyStrip f) ::
          (rest.map (fun s => String.mk (' ' :: s.data))).map
            (fun t => PyItem.str (pyStrip t)) =
          PyItem.str f :: rest.map PyItem.str
      rw [(hstr f (List.mem_cons_self f rest)).1]
      congr 1
      rw [List.map_map]
      refine List.map_congr_left ?_
      intro s hs
      show PyItem.str (pyStrip (String.mk (' ' :: s.data))) = PyItem.str s
      rw [pyStrip_space_cons s, (hstr s (List.mem_cons_of_mem f hs)).1]
    have halias : (if aliases.isEmpty then strs.map PyItem.str
        else (strs.map PyItem.str).map (resolveAlias aliases)) = strs.map PyItem.str := by
      split
      · rfl
      · rw [List.map_map]
        exact List.map_congr_left (fun s hs => (hstr s hs).2.2)
    have hdedup : (if dedup then dedupGo [] (strs.map PyItem.str)
        else strs.map PyItem.str) = strs.map PyItem.str := by
      cases dedup with
      | false => rfl
      | true =>
        show dedupGo [] (strs.map PyItem.str) = _
        exact dedupGo_of_nodup _ []
          ((hnd rfl).map (fun a b hab => PyItem.str.inj hab))
          (fun x _ hx => (List.not_mem_nil x) hx)
    rcases options with _ | opts
    · simp only [mkTuple, tupleItems]
      simp only [hnorm, halias, hdedup]
    · have hfe := mkTuple_ok_filter vals ", " opts aliases dedup (strs.map PyItem.str) h
      simp only [mkTuple, tupleItems]
      simp only [hnorm, halias, hdedup]
      rw [if_pos hfe]
  · intro value options aliases v h hfix
    simp only [mkOption] at h ⊢
    split_ifs at h with hm
    have hv := Except.ok.inj h
    rw [hfix, if_pos (hv ▸ hm)]
  · with_unfolding_all decide
  · with_unfolding_all decide
  · with_unfolding_all rfl

/-- C1 (witness for the amended theorem): every hypothesis-carrying clause
at a concrete input — a bounded `String`, `Bool` at its default sets on
`"yes"` and `"no"`, `Path` at `"/etc/fstab"` and at `"/root/x"` under
`HOME=/root`, `Tuple("a, b, a", dedup=True)`, `Option("dn")` with the
`dn→down` alias, and `Float`/`Int` at 42. -/
theorem c1_roundtrip_amended_witness :
    mkString "ab" (some (.fin 1)) (some (.fin 5)) = .ok "ab" ∧
    (mkBool "yes" defaultTrue defaultFalse = .ok (defaultTrue.headD "", true) ∧
     mkBool (defaultTrue.headD "") defaultTrue defaultFalse =
       .ok (defaultTrue.headD "", true)) ∧
    (mkBool "no" defaultTrue defaultFalse = .ok (defaultFalse.headD "", false) ∧
     mkBool (defaultFalse.headD "") defaultTrue defaultFalse =
       .ok (defaultFalse.headD "", false)) ∧
    mkPath "/root" (fun _ => none) (fun _ => false)
      (pathStr "/root" "/etc/fstab") false = .ok "/etc/fstab" ∧
    mkPath "/root" (fun _ => none) (fun _ => false)
      (pathStr "/root" (String.mk ("/root".data ++ '/' :: ['x']))) false =
      .ok (String.mk ("/root".data ++ '/' :: ['x'])) ∧
    mkTuple [.str (tupleStr ((["a", "b"] : List String).map PyItem.str) ", ")] ", "
      none [] true = .ok ((["a", "b"] : List String).map PyItem.str) ∧
    mkOption "down" ["up", "down"] [("dn", "down")] = .ok "down" ∧
    floatRoundTrip (toString (42 : ℕ)) = floatOfStr (toString (42 : ℕ)) ∧
    intRoundTrip (toString (42 : ℕ)) = intOfStr (toString (42 : ℕ)) := by
  refine ⟨?_, ?_, ?_, ?_, ?_, ?_, ?_, ?_, ?_⟩
  · exact c1_roundtrip_amended.1 "ab" (some (.fin 1)) (some (.fin 5)) "ab"
      (by with_unfolding_all decide)
  · exact c1_roundtrip_amended.2.1 defaultTrue defaultFalse "yes"
      (by with_unfolding_all decide)
  · exact c1_roundtrip_amended.2.2.1 defaultTrue defaultFalse "no"
      (by with_unfolding_all decide) (by with_unfolding_all decide)
      (by with_unfolding_all decide)
  · exact c1_roundtrip_amended.2.2.2.1 "/root" "/etc/fstab" (fun _ => none) (fun _ => false)
      (by with_unfolding_all decide) (by with_unfolding_all decide)
      (by with_unfolding_all decide)
  · exact c1_roundtrip_amended.2.2.2.2.1 "/root" ['x'] (fun _ => none) (fun _ => false)
      (by with_unfolding_all decide) (by with_unfolding_all decide)
  · exact c1_roundtrip_amended.2.2.2.2.2.1 [.str "a, b, a"] ["a", "b"] none [] true
      (by with_unfolding_all decide) (by with_unfolding_all decide)
      (by with_unfolding_all decide) (fun _ => by with_unfolding_all decide)
  · exact c1_roundtrip_amended.2.2.2.2.2.2.1 "dn" ["up", "down"] [("dn", "down")] "down"
      (by with_unfolding_all decide) (by with_unfolding_all decide)
  · exact c1_roundtrip_amended.2.2.2.2.2.2.2.1 ⟨42, by decide⟩
  · exact c1_roundtrip_amended.2.2.2.2.2.2.2.2.1 ⟨42, by decide⟩

/-- C2 (counterexample).  `Float("1k", convert_to="bit", unit="byte")` does
not equal 8000: the conversion table `_NumberMixin.converters` is keyed by
the short unit names `'B'`/`'b'` only, so the spelled-out pair raises
`ValueError: Cannot convert byte to bit`. -/
theorem c2_scaling_cex :
    mkNumber .float (.str "1k") (some "byte") (some "bit") none none none none false =
      .error (.valueError "Cannot convert byte to bit") := by
  with_unfolding_all rfl

/-- C2 (amended).  `Float("1k") == 1000` and `Float("1Ki") == 1024`; for every
prefix token, a one-character token scales by the matching power of 1000 and
sets the metric prefix while a two-character token scales by the matching
power of 1024 and sets the binary prefix; and byte-to-bit conversion
multiplies by 8 when the detected unit differs from `convert_to` — but only
for the short unit names the conversion table knows:
`Float("1k", convert_to="b", unit="B") == 8000`, while the spelled-out
`unit="byte"`/`convert_to="bit"` of the claim raises (see the
counterexample). -/
theorem c2_scaling_amended :
    floatOfStr "1k" = .ok ⟨.float, .fin 1000, defArgs⟩ ∧
    floatOfStr "1Ki" = .ok ⟨.float, .fin 1024, { defArgs with prfx := .binary }⟩ ∧
    mkNumber .float (.str "1k") (some "B") (some "b") none none none none false =
      .ok ⟨.float, .fin 8000, { defArgs with unit := some "b" }⟩ ∧
    (∀ tok mult, (tok, mult) ∈ prefixTable →
      floatOfStr ("1" ++ tok) =
        .ok ⟨.float, .fin mult,
          { defArgs with prfx := if tok.length = 2 then .binary else .metric }⟩) := by
  refine ⟨?_, ?_, ?_, ?_⟩
  · with_unfolding_all rfl
  · with_unfolding_all rfl
  · with_unfolding_all rfl
  · intro tok mult h
    fin_cases h <;> with_unfolding_all rfl

/-- C2 (witness for the amended theorem): the prefix-table clause at the
binary token `"Ki"`. -/
theorem c2_scaling_amended_witness :
    floatOfStr ("1" ++ "Ki") =
      .ok ⟨.float, .fin 1024, { defArgs with prfx := if "Ki".length = 2 then .binary else .metric }⟩ :=
  c2_scaling_amended.2.2.2 "Ki" 1024 (by simp [prefixTable])

theorem roundHEInt_intCast (n : ℤ) : roundHEInt (n : ℚ) = n := by
  simp [roundHEInt, Int.floor_intCast]

theorem ratTrunc_intCast (n : ℤ) : ratTrunc (n : ℚ) = n := by
  unfold ratTrunc
  split <;> simp

theorem intToString_eq (z : ℤ) :
    (if z < 0 then "-" else "") ++ toString z.natAbs = toString z := by
  cases z with
  | ofNat n =>
    have hc : ¬ Int.ofNat n < 0 := by
      rw [Int.ofNat_eq_natCast]
      omega
    rw [if_neg hc]
    show "" ++ toString n = _
    rw [String.nil_append]
    rfl
  | negSucc n =>
    rw [if_pos (Int.negSucc_lt_zero n)]
    rfl

theorem fmtF_int (z : ℤ) : fmtF (z : ℚ) 0 = toString z := by
  have habs : ((|z| : ℤ) : ℚ) = |(z : ℚ)| := Int.cast_abs
  simp only [fmtF, pow_zero, mul_one, if_pos]
  rw [← habs, roundHEInt_intCast, Int.abs_eq_natAbs, Int.toNat_natCast]
  simp only [show ((z : ℚ) < 0) ↔ (z < 0) from by exact_mod_cast Iff.rfl]
  exact intToString_eq z

theorem prettyFloat_int (z : ℤ) (hz : z ≠ 0) : prettyFloat (.fin (z : ℚ)) = toString z := by
  have habs : ((|z| : ℤ) : ℚ) = |(z : ℚ)| := Int.cast_abs
  simp only [prettyFloat]
  rw [if_neg (by exact_mod_cast hz)]
  have hr2 : roundHE |(z : ℚ)| 2 = (ratTrunc |(z : ℚ)| : ℚ) := by
    rw [roundHE, ← habs, show (((|z| : ℤ) : ℚ)) * 10 ^ 2 = (((|z| * 100 : ℤ)) : ℚ) by push_cast; ring,
      roundHEInt_intCast, ratTrunc_intCast]
    push_cast
    ring
  rw [if_pos hr2]
  exact fmtF_int z

/-- The default-configuration Float printing path for a finite non-zero
value: the prefix loop over the metric table with no unit suffix. -/
theorem numString_default_fin (q : ℚ) (hq : q ≠ 0) :
    numString ⟨.float, .fin q, defArgs⟩ = stringifyLoop q |q| prefixesMetric := by
  simp only [numString, Num.string, defArgs]
  rw [if_neg (by simpa using hq), if_neg (by simp [PF.abs])]
  simp [tableOf]

/-- Any divisor in the metric table is one of the four powers of 1000. -/
theorem metricMem (t2 : String) (s2 : ℚ) (hm : (t2, s2) ∈ prefixesMetric) :
    s2 = 1000 ^ 4 ∨ s2 = 1000 ^ 3 ∨ s2 = 1000 ^ 2 ∨ s2 = 1000 := by
  simp only [prefixesMetric, List.mem_cons, List.not_mem_nil, or_false, Prod.mk.injEq] at hm
  tauto

/-- C3.  Pretty printing: `str(Float(0)) == "0"`,
`str(Float(inf)) == "∞"`, `str(Float(1536, prefix="binary")) == "1.5Ki"`,
`str(Float(999)) == "999"`, `str(Float(999.999)) == "1000"` (the Python
literal `999.999` and the exact rational `999999/1000` round identically at
these precisions); in default mode the largest metric prefix whose threshold
does not exceed the absolute value is chosen and the value divided by it
(existence and maximality of the chosen divisor below), values under the
first threshold print bare, and integral values render with no decimals. -/
theorem c3_pretty_printing :
    (floatOfLit (.fin 0)).map numString = .ok "0" ∧
    (floatOfLit .inf).map numString = .ok "∞" ∧
    (mkNumber .float (.lit (.fin 1536)) none none (some .binary) none none none false).map
      numString = .ok "1.5Ki" ∧
    (floatOfLit (.fin 999)).map numString = .ok "999" ∧
    (floatOfLit (.fin (999999/1000))).map numString = .ok "1000" ∧
    (∀ q : ℚ, 1000 ≤ |q| →
      ∃ tok size, (tok, size) ∈ prefixesMetric ∧ size ≤ |q| ∧
        (∀ tok2 size2, (tok2, size2) ∈ prefixesMetric → size2 ≤ |q| → size2 ≤ size) ∧
        numString ⟨.float, .fin q, defArgs⟩ = prettyFloat (.fin (q / size)) ++ tok) ∧
    (∀ q : ℚ, q ≠ 0 → |q| < 1000 →
      numString ⟨.float, .fin q, defArgs⟩ = prettyFloat (.fin q)) ∧
    (∀ z : ℤ, z ≠ 0 → prettyFloat (.fin (z : ℚ)) = toString z) := by
  refine ⟨by with_unfolding_all rfl, by with_unfolding_all rfl, by with_unfolding_all rfl,
    by with_unfolding_all rfl, by with_unfolding_all rfl, ?_, ?_, ?_⟩
  · intro q hq
    have hq0 : q ≠ 0 := by
      intro h
      rw [h] at hq
      norm_num at hq
    have hbase := numString_default_fin q hq0
    rcases le_or_lt ((1000 : ℚ) ^ 4) |q| with h4 | h4
    · refine ⟨"T", 1000 ^ 4, by simp [prefixesMetric], h4, ?_, ?_⟩
      · intro t2 s2 hm hle
        rcases metricMem t2 s2 hm with h | h | h | h <;> rw [h] <;> norm_num
      · rw [hbase]
        simp only [prefixesMetric, stringifyLoop]
        rw [if_pos h4]
    · rcases le_or_lt ((1000 : ℚ) ^ 3) |q| with h3 | h3
      · refine ⟨"G", 1000 ^ 3, by simp [prefixesMetric], h3, ?_, ?_⟩
        · intro t2 s2 hm hle
          rcases metricMem t2 s2 hm with h | h | h | h <;> rw [h] <;> rw [h] at hle <;>
            first | linarith | norm_num
        · rw [hbase]
          simp only [prefixesMetric, stringifyLoop]
          rw [if_neg (not_le.mpr h4), if_pos h3]
      · rcases le_or_lt ((1000 : ℚ) ^ 2) |q| with h2 | h2
        · refine ⟨"M", 1000 ^ 2, by simp [prefixesMetric], h2, ?_, ?_⟩
          · intro t2 s2 hm hle
            rcases metricMem t2 s2 hm with h | h | h | h <;> rw [h] <;> rw [h] at hle <;>
              first | linarith | norm_num
          · rw [hbase]
            simp only [prefixesMetric, stringifyLoop]
            rw [if_neg (not_le.mpr h4), if_neg (not_le.mpr h3), if_pos h2]
        · refine ⟨"k", 1000, by simp [prefixesMetric], hq, ?_, ?_⟩
          · intro t2 s2 hm hle
            rcases metricMem t2 s2 hm with h | h | h | h <;> rw [h] <;> rw [h] at hle <;>
              first | linarith | norm_num
          · rw [hbase]
            simp only [prefixesMetric, stringifyLoop]
            rw [if_neg (not_le.mpr h4), if_neg (not_le.mpr h3), if_neg (not_le.mpr h2),
              if_pos hq]
  · intro q hq0 hlt
    rw [numString_default_fin q hq0]
    simp only [prefixesMetric, stringifyLoop]
    rw [if_neg (not_le.mpr (hlt.trans_le (by norm_num))),
      if_neg (not_le.mpr (hlt.trans_le (by norm_num))),
      if_neg (not_le.mpr (hlt.trans_le (by norm_num))), if_neg (not_le.mpr hlt)]
  · exact fun z hz => prettyFloat_int z hz

/-- C3 (witness): the general clauses of the pretty-printing theorem at
concrete inputs 2500, 999 and 7. -/
theorem c3_pretty_printing_witness :
    (∃ tok size, (tok, size) ∈ prefixesMetric ∧ size ≤ |(2500 : ℚ)| ∧
      (∀ tok2 size2, (tok2, size2) ∈ prefixesMetric → size2 ≤ |(2500 : ℚ)| → size2 ≤ size) ∧
      numString ⟨.float, .fin 2500, defArgs⟩ = prettyFloat (.fin (2500 / size)) ++ tok) ∧
    numString ⟨.float, .fin 999, defArgs⟩ = prettyFloat (.fin 999) ∧
    prettyFloat (.fin ((7 : ℤ) : ℚ)) = toString (7 : ℤ) := by
  refine ⟨c3_pretty_printing.2.2.2.2.2.1 2500 (by norm_num),
    c3_pretty_printing.2.2.2.2.2.2.1 999 (by norm_num) (by norm_num),
    c3_pretty_printing.2.2.2.2.2.2.2 7 (by norm_num)⟩

theorem ratCast_num_of_den_one (q : ℚ) (h : q.den = 1) : ((q.num : ℤ) : ℚ) = q := by
  conv_rhs => rw [← Rat.num_div_den q]
  rw [h]
  simp

theorem roundHEInt_den_one (q : ℚ) (h : q.den = 1) : roundHEInt q = q.num := by
  conv_lhs => rw [← ratCast_num_of_den_one q h]
  rw [roundHEInt_intCast]

/-- Integer-valued operands produce an integer-valued exact result for every
int-preserving operation. -/
theorem binExact_den_one (op : BinOp) (a b : ℚ) (ha : a.den = 1) (hb : b.den = 1)
    (hop : op ≠ .truediv) (hpow : op = .pow → 0 ≤ b.num) : (binExact op a b).den = 1 := by
  obtain ⟨m, rfl⟩ : ∃ m : ℤ, a = (m : ℚ) := ⟨a.num, (ratCast_num_of_den_one a ha).symm⟩
  obtain ⟨n, rfl⟩ : ∃ n : ℤ, b = (n : ℚ) := ⟨b.num, (ratCast_num_of_den_one b hb).symm⟩
  cases op with
  | add => rw [binExact, ← Int.cast_add]; exact Rat.den_intCast _
  | sub => rw [binExact, ← Int.cast_sub]; exact Rat.den_intCast _
  | mul => rw [binExact, ← Int.cast_mul]; exact Rat.den_intCast _
  | truediv => exact absurd rfl hop
  | floordiv => rw [binExact]; exact Rat.den_intCast _
  | mod =>
    rw [binExact, show (m : ℚ) - (n : ℚ) * ((⌊(m : ℚ) / (n : ℚ)⌋ : ℤ) : ℚ) =
      ((m - n * ⌊(m : ℚ) / (n : ℚ)⌋ : ℤ) : ℚ) by push_cast; ring]
    exact Rat.den_intCast _
  | pow =>
    have hn : 0 ≤ ((n : ℚ)).num := hpow rfl
    rw [binExact]
    obtain ⟨k, rfl⟩ : ∃ k : ℕ, n = (k : ℤ) := ⟨n.toNat, by simp at hn ⊢; omega⟩
    rw [show ((k : ℤ) : ℚ).num = (k : ℤ) by simp, zpow_natCast, ← Int.cast_pow]
    exact Rat.den_intCast _

/-- On its defined domain the extended-value arithmetic agrees with the exact
rational operation. -/
theorem opPF_fin (op : BinOp) (a b : ℚ) (hd : binDefined op a b) :
    opPF op (.fin a) (.fin b) = .ok (.fin (binExact op a b)) := by
  cases op with
  | add => rfl
  | sub => rfl
  | mul => rfl
  | truediv => simp only [opPF, binExact, if_neg (by exact hd)]
  | floordiv => simp only [opPF, binExact, if_neg (by exact hd)]
  | mod => simp only [opPF, binExact, if_neg (by exact hd)]
  | pow =>
    obtain ⟨hden, hz⟩ := hd
    simp only [opPF, binExact, if_pos hden]
    rw [if_neg]
    rintro ⟨rfl, hneg⟩
    exact absurd (hz rfl) (by omega)

/-- The shared constructor tail on a plain Float value with no conversion
and no bounds is the identity wrapping. -/
theorem mkNumberTail_float_nobounds (v : PF) (u : Option String) (pk : PrefixKind)
    (hu pr : Bool) :
    mkNumberTail .float v u none pk hu none none pr =
      .ok ⟨.float, v, ⟨u, pk, hu, none, none, pr⟩⟩ := rfl

/-- The shared constructor tail on an integral Int value with no conversion
and no bounds wraps the value unchanged (rounding fixes integers). -/
theorem mkNumberTail_int_nobounds (q : ℚ) (hden : q.den = 1) (u : Option String)
    (pk : PrefixKind) (hu pr : Bool) :
    mkNumberTail .int (.fin q) u none pk hu none none pr =
      .ok ⟨.int, .fin q, ⟨u, pk, hu, none, none, pr⟩⟩ := by
  simp only [mkNumberTail, bind, Except.bind, pure, Except.pure, pyRoundToInt]
  rw [roundHEInt_den_one q hden, ratCast_num_of_den_one q hden]

/-- `result_cls(result, **self._args)` on a finite result with no bounds in
the copied arguments: narrowing by integrality of the value and an unchanged
configuration. -/
theorem rewrapResult_fin (args : NumArgs) (hmn : args.vmin = none) (hmx : args.vmax = none)
    (ipi : Bool) (v : ℚ) (hipi : ipi = true → v.den = 1) :
    rewrapResult args ipi (.fin v) =
      .ok ⟨if v.den = 1 then .int else .float, .fin v, args⟩ := by
  obtain ⟨u, pk, hu, mn, mx, pr⟩ := args
  simp only at hmn hmx
  subst hmn
  subst hmx
  have hcls : narrowCls ipi (.fin v) = .ok (if v.den = 1 then .int else .float) := by
    cases ipi with
    | true => simp [narrowCls, hipi rfl]
    | false => simp [narrowCls]
  simp only [rewrapResult, hcls, bind, Except.bind]
  by_cases hden : v.den = 1
  · rw [if_pos hden]
    show mkNumber .int (.lit (.fin v)) u none (some pk) (some hu) none none pr = _
    exact mkNumberTail_int_nobounds v hden u pk hu pr
  · rw [if_neg hden]
    show mkNumber .float (.lit (.fin v)) u none (some pk) (some hu) none none pr = _
    exact mkNumberTail_float_nobounds (.fin v) u pk hu pr

/-- The shared constructor tail on a finite value with no conversion: the
integer rounding is the identity (given integrality for the Int variant) and
only the bounds checks remain. -/
theorem mkNumberTail_fin_cases (cls : NumCls) (v : ℚ) (hint : cls = .int → v.den = 1)
    (u : Option String) (pk : PrefixKind) (hu : Bool) (mn mx : Option PF) (pr : Bool) :
    mkNumberTail cls (.fin v) u none pk hu mn mx pr =
      (match mn, mx with
       | some m, _ =>
         if (PF.fin v).ltB m then
           .error (.valueError ("Too small (minimum is " ++ pfBoundStr m ++ ")"))
         else
           match mx with
           | some mb =>
             if mb.ltB (.fin v) then
               .error (.valueError ("Too big (maximum is " ++ pfBoundStr mb ++ ")"))
             else .ok ⟨cls, .fin v, ⟨u, pk, hu, mn, mx, pr⟩⟩
           | none => .ok ⟨cls, .fin v, ⟨u, pk, hu, mn, mx, pr⟩⟩
       | none, some mb =>
         if mb.ltB (.fin v) then
           .error (.valueError ("Too big (maximum is " ++ pfBoundStr mb ++ ")"))
         else .ok ⟨cls, .fin v, ⟨u, pk, hu, mn, mx, pr⟩⟩
       | none, none => .ok ⟨cls, .fin v, ⟨u, pk, hu, mn, mx, pr⟩⟩) := by
  cases cls with
  | float => rfl
  | int =>
    have hden := hint rfl
    simp only [mkNumberTail, bind, Except.bind, pure, Except.pure, pyRoundToInt,
      roundHEInt_den_one v hden, ratCast_num_of_den_one v hden]
    rfl

/-- Rewrapping a finite result whose value passes both copied bounds. -/
theorem rewrapResult_fin_pass (args : NumArgs) (ipi : Bool) (v : ℚ)
    (hipi : ipi = true → v.den = 1)
    (hmn : ∀ m, args.vmin = some m → (PF.fin v).ltB m = false)
    (hmx : ∀ m, args.vmax = some m → m.ltB (.fin v) = false) :
    rewrapResult args ipi (.fin v) =
      .ok ⟨if v.den = 1 then .int else .float, .fin v, args⟩ := by
  obtain ⟨u, pk, hu, mn, mx, pr⟩ := args
  have hcls : narrowCls ipi (.fin v) = .ok (if v.den = 1 then .int else .float) := by
    cases ipi with
    | true => simp [narrowCls, hipi rfl]
    | false => simp [narrowCls]
  have hint : (if v.den = 1 then NumCls.int else NumCls.float) = .int → v.den = 1 := by
    split <;> simp_all
  simp only [rewrapResult, hcls, bind, Except.bind]
  show mkNumber _ (.lit (.fin v)) u none (some pk) (some hu) mn mx pr = _
  show mkNumberTail _ (.fin v) u none pk hu mn mx pr = _
  rw [mkNumberTail_fin_cases _ v hint u pk hu mn mx pr]
  rcases mn with _ | m
  · rcases mx with _ | mb
    · rfl
    · dsimp only
      rw [if_neg (by simp [hmx mb rfl])]
  · rcases mx with _ | mb
    · dsimp only
      rw [if_neg (by simp [hmn m rfl])]
    · dsimp only
      rw [if_neg (by simp [hmn m rfl]), if_neg (by simp [hmx mb rfl])]

/-- Rewrapping a finite result that exceeds the copied maximum raises the
bounds `ValueError` (the minimum is checked first and must pass). -/
theorem rewrapResult_fin_toobig (args : NumArgs) (ipi : Bool) (v : ℚ) (mx : PF)
    (hipi : ipi = true → v.den = 1)
    (hmn : ∀ m, args.vmin = some m → (PF.fin v).ltB m = false)
    (hmx : args.vmax = some mx) (hgt : mx.ltB (.fin v) = true) :
    rewrapResult args ipi (.fin v) =
      .error (.valueError ("Too big (maximum is " ++ pfBoundStr mx ++ ")")) := by
  obtain ⟨u, pk, hu, mn, mx', pr⟩ := args
  simp only at hmx
  subst hmx
  have hcls : narrowCls ipi (.fin v) = .ok (if v.den = 1 then .int else .float) := by
    cases ipi with
    | true => simp [narrowCls, hipi rfl]
    | false => simp [narrowCls]
  have hint : (if v.den = 1 then NumCls.int else NumCls.float) = .int → v.den = 1 := by
    split <;> simp_all
  simp only [rewrapResult, hcls, bind, Except.bind]
  show mkNumber _ (.lit (.fin v)) u none (some pk) (some hu) mn (some mx) pr = _
  show mkNumberTail _ (.fin v) u none pk hu mn (some mx) pr = _
  rw [mkNumberTail_fin_cases _ v hint u pk hu mn (some mx) pr]
  rcases mn with _ | m
  · dsimp only
    rw [if_pos (by simp [hgt])]
  · dsimp only
    rw [if_neg (by simp [hmn m rfl]), if_pos (by simp [hgt])]


/-- C4 (counterexample).  `Int(5) - Float(2.5, unit="B")`: `int.__sub__`
returns NotImplemented, so `_do_math` falls back to the right operand's
overloaded method with the operands swapped; the rebuilt result is a Float
whose unit is the right operand's `"B"` (the left operand carries no unit),
and whose value is `2.5 - 5 = -2.5` rather than `5 - 2.5` — the result does
not carry the left operand's configuration unchanged. -/
theorem c4_arith_typing_cex :
    mkNumber .int (.lit (.fin 5)) none none none none none none false =
      .ok ⟨.int, .fin 5, defArgs⟩ ∧
    mkNumber .float (.lit (.fin (5/2))) (some "B") none none none none none false =
      .ok ⟨.float, .fin (5/2), { defArgs with unit := some "B" }⟩ ∧
    doMathBin ⟨.int, .fin 5, defArgs⟩ .sub ⟨.float, .fin (5/2), { defArgs with unit := some "B" }⟩ =
      .ok ⟨.float, .fin (-(5/2)), { defArgs with unit := some "B" }⟩ ∧
    (Num.args ⟨.int, .fin 5, defArgs⟩).unit = none ∧
    some "B" ≠ (none : Option String) := by
  refine ⟨by with_unfolding_all rfl, by with_unfolding_all rfl, by with_unfolding_all rfl,
    rfl, by simp⟩

/-- C4 (amended).  For finite operands inside the operation's exact domain,
excluding the `Int`-left/`Float`-right pairing (where `int.__op__` returns
NotImplemented and the code computes the flipped operation with the right
operand's configuration, see the counterexample), with `Int`-variant
operands holding integral values (as the constructor guarantees), every
binary operator yields a new Number with the exact rational value, the left
operand's `_args` (unit, prefix, hide_unit, min, max, precise) unchanged,
and the `Int` variant exactly when the exact result is integral — provided
the result passes the copied min/max bounds; a result exceeding the copied
maximum instead raises the bounds `ValueError`.  Every unary operator
(`floor`, `ceil`, no-argument `round`) yields the `Int` variant with the
exact value and unchanged `_args` under the same bounds proviso.  A
negative-infinite left operand makes the `int(result)` narrowing probe
raise OverflowError (proven for adding any finite Number to a
Float-variant `-inf`).  `Float(2.0) + Float(3.0)` is the `Int` variant
printing as `"5"`. -/
theorem c4_arith_typing_amended :
    (∀ (self other : Num) (op : BinOp) (a b : ℚ),
      self.val = .fin a → other.val = .fin b →
      ¬(self.cls = .int ∧ other.cls = .float) →
      (self.cls = .int → a.den = 1) → (other.cls = .int → b.den = 1) →
      binDefined op a b →
      (∀ m, self.args.vmin = some m → (PF.fin (binExact op a b)).ltB m = false) →
      (∀ m, self.args.vmax = some m → m.ltB (.fin (binExact op a b)) = false) →
      doMathBin self op other =
        .ok ⟨if (binExact op a b).den = 1 then .int else .float, .fin (binExact op a b),
          self.args⟩) ∧
    (∀ (self other : Num) (op : BinOp) (a b : ℚ) (mx : PF),
      self.val = .fin a → other.val = .fin b →
      ¬(self.cls = .int ∧ other.cls = .float) →
      (self.cls = .int → a.den = 1) → (other.cls = .int → b.den = 1) →
      binDefined op a b →
      (∀ m, self.args.vmin = some m → (PF.fin (binExact op a b)).ltB m = false) →
      self.args.vmax = some mx → mx.ltB (.fin (binExact op a b)) = true →
      doMathBin self op other =
        .error (.valueError ("Too big (maximum is " ++ pfBoundStr mx ++ ")"))) ∧
    (∀ (self : Num) (q : ℚ) (op : UnOp),
      self.val = .fin q →
      (∀ m, self.args.vmin = some m → (PF.fin ((unOpQ op q : ℤ) : ℚ)).ltB m = false) →
      (∀ m, self.args.vmax = some m → m.ltB (.fin ((unOpQ op q : ℤ) : ℚ)) = false) →
      doMathUn self op = .ok ⟨.int, .fin ((unOpQ op q : ℤ) : ℚ), self.args⟩) ∧
    (∀ (other : Num) (b : ℚ) (args : NumArgs),
      other.val = .fin b →
      doMathBin ⟨.float, .ninf, args⟩ .add other = .error .overflowError) ∧
    (doMathBin ⟨.float, .fin 2, defArgs⟩ .add ⟨.float, .fin 3, defArgs⟩ =
      .ok ⟨.int, .fin 5, defArgs⟩ ∧
     numString ⟨.int, .fin 5, defArgs⟩ = "5") := by
  refine ⟨?_, ?_, ?_, ?_, by with_unfolding_all rfl, by with_unfolding_all rfl⟩
  · intro self other op a b hva hvb hflip hwa hwb hd hbmn hbmx
    obtain ⟨c1, v1, a1⟩ := self
    obtain ⟨c2, v2, a2⟩ := other
    simp only at hva hvb hwa hwb hflip hbmn hbmx ⊢
    subst hva
    subst hvb
    have hip : binIsPyInt c1 c2 op (.fin b) = true → (binExact op a b).den = 1 := by
      intro h
      simp only [binIsPyInt, Bool.and_eq_true, decide_eq_true_eq, bne_iff_ne,
        Bool.not_eq_true', decide_eq_false_iff_not] at h
      obtain ⟨⟨⟨hc1, hc2⟩, hop⟩, hpw⟩ := h
      refine binExact_den_one op a b (hwa hc1) (hwb hc2) hop ?_
      intro hpe
      subst hpe
      have hnn : ¬ b.num < 0 := by simpa using hpw
      omega
    have hnotinf : (PF.fin a) ≠ PF.inf := by simp
    have hfb : (decide (c1 = NumCls.int) && decide (c2 = NumCls.float)) = false := by
      cases c1 <;> cases c2 <;> simp_all
    show doMathBin ⟨c1, .fin a, a1⟩ op ⟨c2, .fin b, a2⟩ = _
    unfold doMathBin
    rw [if_neg hnotinf, if_neg (by simp [hfb])]
    show Except.bind (opPF op (.fin a) (.fin b)) _ = _
    rw [opPF_fin op a b hd]
    show rewrapResult a1 (binIsPyInt c1 c2 op (.fin b)) (.fin (binExact op a b)) = _
    exact rewrapResult_fin_pass a1 _ _ hip hbmn hbmx
  · intro self other op a b mx hva hvb hflip hwa hwb hd hbmn hbmx hgt
    obtain ⟨c1, v1, a1⟩ := self
    obtain ⟨c2, v2, a2⟩ := other
    simp only at hva hvb hwa hwb hflip hbmn hbmx ⊢
    subst hva
    subst hvb
    have hip : binIsPyInt c1 c2 op (.fin b) = true → (binExact op a b).den = 1 := by
      intro h
      simp only [binIsPyInt, Bool.and_eq_true, decide_eq_true_eq, bne_iff_ne,
        Bool.not_eq_true', decide_eq_false_iff_not] at h
      obtain ⟨⟨⟨hc1, hc2⟩, hop⟩, hpw⟩ := h
      refine binExact_den_one op a b (hwa hc1) (hwb hc2) hop ?_
      intro hpe
      subst hpe
      have hnn : ¬ b.num < 0 := by simpa using hpw
      omega
    have hnotinf : (PF.fin a) ≠ PF.inf := by simp
    have hfb : (decide (c1 = NumCls.int) && decide (c2 = NumCls.float)) = false := by
      cases c1 <;> cases c2 <;> simp_all
    show doMathBin ⟨c1, .fin a, a1⟩ op ⟨c2, .fin b, a2⟩ = _
    unfold doMathBin
    rw [if_neg hnotinf, if_neg (by simp [hfb])]
    show Except.bind (opPF op (.fin a) (.fin b)) _ = _
    rw [opPF_fin op a b hd]
    show rewrapResult a1 (binIsPyInt c1 c2 op (.fin b)) (.fin (binExact op a b)) = _
    exact rewrapResult_fin_toobig a1 _ _ mx hip hbmn hbmx hgt
  · intro self q op hv hmn hmx
    obtain ⟨c1, v1, a1⟩ := self
    simp only at hv hmn hmx ⊢
    subst hv
    show doMathUn ⟨c1, .fin q, a1⟩ op = _
    unfold doMathUn
    rw [if_neg (by simp)]
    show rewrapResult a1 true (.fin ((unOpQ op q : ℤ) : ℚ)) = _
    rw [rewrapResult_fin_pass a1 true _ (fun _ => Rat.den_intCast _) hmn hmx]
    rw [if_pos (Rat.den_intCast _)]
  · intro other b args hvb
    obtain ⟨c2, v2, a2⟩ := other
    simp only at hvb
    subst hvb
    rfl

/-- C4 (witness for the amended theorem): the in-bounds binary clause at
`Float(7) * Float(2.5)` (args preserved, Float result since 17.5 is not
integral), the out-of-bounds clause at `Float(5, max=6) + Float(4)` (9
exceeds the copied maximum), the unary clause at `floor(Float(2.5))`, and
the overflow clause at `Float(-inf) + Float(1)`. -/
theorem c4_arith_typing_amended_witness :
    doMathBin ⟨.float, .fin 7, defArgs⟩ .mul ⟨.float, .fin (5/2), defArgs⟩ =
      .ok ⟨if (binExact .mul 7 (5/2)).den = 1 then .int else .float,
        .fin (binExact .mul 7 (5/2)), defArgs⟩ ∧
    doMathBin ⟨.float, .fin 5, { defArgs with vmax := some (.fin 6) }⟩ .add
        ⟨.float, .fin 4, defArgs⟩ =
      .error (.valueError ("Too big (maximum is " ++ pfBoundStr (.fin 6) ++ ")")) ∧
    doMathUn ⟨.float, .fin (5/2), defArgs⟩ .floor =
      .ok ⟨.int, .fin ((unOpQ .floor (5/2) : ℤ) : ℚ), defArgs⟩ ∧
    doMathBin ⟨.float, .ninf, defArgs⟩ .add ⟨.float, .fin 1, defArgs⟩ =
      .error .overflowError := by
  refine ⟨?_, ?_, ?_, ?_⟩
  · exact c4_arith_typing_amended.1 ⟨.float, .fin 7, defArgs⟩ ⟨.float, .fin (5/2), defArgs⟩
      .mul 7 (5/2) rfl rfl (by simp) (by simp) (by simp) trivial
      (fun m hm => Option.noConfusion hm) (fun m hm => Option.noConfusion hm)
  · exact c4_arith_typing_amended.2.1 ⟨.float, .fin 5, { defArgs with vmax := some (.fin 6) }⟩
      ⟨.float, .fin 4, defArgs⟩ .add 5 4 (.fin 6) rfl rfl (by simp) (by simp) (by simp)
      trivial (fun m hm => Option.noConfusion hm) rfl (by with_unfolding_all decide)
  · exact c4_arith_typing_amended.2.2.1 ⟨.float, .fin (5/2), defArgs⟩ (5/2) .floor rfl
      (fun m hm => Option.noConfusion hm) (fun m hm => Option.noConfusion hm)
  · exact c4_arith_typing_amended.2.2.2.1 ⟨.float, .fin 1, defArgs⟩ 1 defArgs rfl

/-- C5 (counterexample).  `"-=1"` against a non-numeric setting does not
leave the literal `"-=1"` unchanged: `_get_operator` still parses the
remainder as `Float(1)`, and `_adjust_value` returns that parsed Number (it
only skips applying the operator), so the resulting value is the Number 1. -/
theorem c5_operator_detection_cex :
    resolveValue "x" (.str "hello") (.str "-=1") =
      .ok (.num ⟨.float, .fin 1, defArgs⟩) ∧
    resolveValue "x" (.str "hello") (.str "-=1") ≠ .ok (.str "-=1") := by
  have h : resolveValue "x" (.str "hello") (.str "-=1") =
      .ok (.num ⟨.float, .fin 1, defArgs⟩) := by with_unfolding_all rfl
  refine ⟨h, ?_⟩
  rw [h]
  simp

/-- C5 (amended).  `"+=100kB"` against a numeric setting of 50 parses the
delta as the Number 100000 with unit `"B"` and the metric prefix, and
produces 100050; `"-=1"` against any non-numeric setting (a string or a
list) produces the parsed Number 1 — the operator is not applied to
non-numeric types, but the parsed delta, not the literal `"-=1"`, is the
resulting value. -/
theorem c5_operator_detection_amended :
    getOperator (.str "+=100kB") =
      .ok (.withOp .add ⟨.float, .fin 100000, { defArgs with unit := some "B" }⟩) ∧
    resolveValue "x" (.num ⟨.float, .fin 50, defArgs⟩) (.str "+=100kB") =
      .ok (.num ⟨.int, .fin 100050, defArgs⟩) ∧
    (∀ (name s : String),
      resolveValue name (.str s) (.str "-=1") = .ok (.num ⟨.float, .fin 1, defArgs⟩)) ∧
    (∀ (name : String) (xs : List String),
      resolveValue name (.listv xs) (.str "-=1") = .ok (.num ⟨.float, .fin 1, defArgs⟩)) := by
  refine ⟨by with_unfolding_all rfl, by with_unfolding_all rfl, ?_, ?_⟩
  · intro name s
    unfold resolveValue
    rw [show getOperator (.str "-=1") = .ok (.withOp .sub ⟨.float, .fin 1, defArgs⟩) from
      by with_unfolding_all rfl]
    rfl
  · intro name xs
    unfold resolveValue
    rw [show getOperator (.str "-=1") = .ok (.withOp .sub ⟨.float, .fin 1, defArgs⟩) from
      by with_unfolding_all rfl]
    rfl

/-- C6.  Bounds enforcement and error reporting: `Integer(5, min=0, max=3)`
fails with `ValueError: Too big (maximum is 3)`; and applying a positive
`+=` delta to a Float-variant Number sitting exactly at its maximum fails,
with the attempted value embedded in the message being the unbounded
arithmetic result, recomputed from a copy of the current value whose
min/max are lifted to the infinities (`Num.copy` lives outside src and is
modelled from the spec). -/
theorem c6_bounds_enforcement :
    mkNumber .int (.lit (.fin 5)) none none none none (some (.fin 0)) (some (.fin 3)) false =
      .error (.valueError "Too big (maximum is 3)") ∧
    (∀ (name : String) (n delta : Num) (m d : ℚ),
      n.cls = .float → n.val = .fin m → n.args.vmin = none → n.args.vmax = some (.fin m) →
      delta.cls = .float → delta.val = .fin d → 0 < d →
      ∃ invalid : Num,
        applyOperator name (.num n) .add delta =
          .error (name ++ " = " ++ numString invalid ++ ": " ++
            ("Too big (maximum is " ++ pfBoundStr (.fin m) ++ ")")) ∧
        invalid.val = .fin (m + d) ∧
        invalid.args = { n.args with vmin := some .ninf, vmax := some .inf }) := by
  constructor
  · with_unfolding_all rfl
  · intro name n delta m d hc hv hmn hmx hdc hdv hd
    obtain ⟨c1, v1, a1⟩ := n
    obtain ⟨c2, v2, a2⟩ := delta
    simp only at hc hv hmn hmx hdc hdv ⊢
    subst hc
    subst hv
    subst hdc
    subst hdv
    have hipi : binIsPyInt .float .float .add (.fin d) = false := by simp [binIsPyInt]
    have hgt : (PF.fin m).ltB (.fin (binExact .add m d)) = true := by
      simp only [PF.ltB, binExact, decide_eq_true_eq]
      linarith
    have hdm : doMathBin ⟨.float, .fin m, a1⟩ .add ⟨.float, .fin d, a2⟩ =
        .error (.valueError ("Too big (maximum is " ++ pfBoundStr (.fin m) ++ ")")) := by
      unfold doMathBin
      rw [if_neg (by simp), if_neg (by simp)]
      show Except.bind (opPF .add (.fin m) (.fin d)) _ = _
      rw [opPF_fin .add m d trivial]
      show rewrapResult a1 (binIsPyInt .float .float .add (.fin d)) (.fin (binExact .add m d)) = _
      rw [hipi]
      exact rewrapResult_fin_toobig a1 false (binExact .add m d) (.fin m) (by simp)
        (fun mm hmm => by rw [hmn] at hmm; cases hmm) hmx hgt
    have hadj : adjustValue (.num ⟨.float, .fin m, a1⟩) .add ⟨.float, .fin d, a2⟩ =
        .error (.valueError ("Too big (maximum is " ++ pfBoundStr (.fin m) ++ ")")) := by
      unfold adjustValue
      dsimp only
      rw [if_neg (by simp), hdm]
      rfl
    have hub : doMathBin ⟨.float, .fin m, { a1 with vmin := some .ninf, vmax := some .inf }⟩
        .add ⟨.float, .fin d, a2⟩ =
        .ok ⟨if (binExact .add m d).den = 1 then .int else .float, .fin (m + d),
          { a1 with vmin := some .ninf, vmax := some .inf }⟩ := by
      unfold doMathBin
      rw [if_neg (by simp), if_neg (by simp)]
      show Except.bind (opPF .add (.fin m) (.fin d)) _ = _
      rw [opPF_fin .add m d trivial]
      show rewrapResult _ (binIsPyInt .float .float .add (.fin d)) (.fin (binExact .add m d)) = _
      rw [hipi]
      rw [rewrapResult_fin_pass _ false (binExact .add m d) (by simp)
        (fun mm hmm => by injection hmm with h; rw [← h]; rfl)
        (fun mm hmm => by injection hmm with h; rw [← h]; rfl)]
      rfl
    refine ⟨⟨if (binExact .add m d).den = 1 then .int else .float, .fin (m + d),
      { a1 with vmin := some .ninf, vmax := some .inf }⟩, ?_, rfl, rfl⟩
    unfold applyOperator
    rw [hadj]
    dsimp only
    rw [hub]

/-- C6 (witness): a Float at its maximum 100 with `+=10`: the command fails
and the reported attempted value is the unbounded 110. -/
theorem c6_bounds_enforcement_witness :
    ∃ invalid : Num,
      applyOperator "x"
        (.num ⟨.float, .fin 100, ⟨none, .metric, false, none, some (.fin 100), false⟩⟩)
        .add ⟨.float, .fin 10, defArgs⟩ =
        .error ("x" ++ " = " ++ numString invalid ++ ": " ++
          ("Too big (maximum is " ++ pfBoundStr (.fin 100) ++ ")")) ∧
      invalid.val = .fin (100 + 10) ∧
      invalid.args = { (⟨none, .metric, false, none, some (.fin 100), false⟩ : NumArgs) with
        vmin := some .ninf, vmax := some .inf } :=
  c6_bounds_enforcement.2 "x" ⟨.float, .fin 100, ⟨none, .metric, false, none, some (.fin 100), false⟩⟩
    ⟨.float, .fin 10, defArgs⟩ 100 10 rfl rfl rfl rfl rfl rfl (by norm_num)

/-- C7 (counterexample).  A standard-error stream consisting of a single
newline is non-empty, yet `_eval_cmd` strips newlines before the emptiness
check and succeeds, returning the stripped stdout — the claim's "fails
whenever standard error is non-empty" does not hold as stated. -/
theorem c7_shell_eval_cex :
    ("\n" : String) ≠ "" ∧ evalCmd "x" "\n" 0 = .ok "x" := by
  refine ⟨by decide, by with_unfolding_all rfl⟩

/-- C7 (amended).  For every captured stdout, stderr and exit code: when the
newline-stripped stderr is non-empty the evaluation fails with that stripped
text as the error message, regardless of the exit code; otherwise the
newline-stripped stdout becomes the literal value (stripping removes leading
newlines as well, not only trailing ones). -/
theorem c7_shell_eval_amended :
    ∀ (stdout stderr : String) (code : ℕ),
      (stripNl stderr ≠ "" → evalCmd stdout stderr code = .error (stripNl stderr)) ∧
      (stripNl stderr = "" → evalCmd stdout stderr code = .ok (stripNl stdout)) := by
  intro o e c
  constructor
  · intro h
    simp only [evalCmd]
    rw [if_pos h]
  · intro h
    simp only [evalCmd]
    rw [if_neg (by simp [h])]

/-- C7 (witness for the amended theorem): stderr `"err\n"` with exit code 0
fails with `"err"`; empty stderr returns the stripped stdout. -/
theorem c7_shell_eval_amended_witness :
    evalCmd "out\n" "err\n" 0 = .error (stripNl "err\n") ∧
    evalCmd "out\n" "" 7 = .ok (stripNl "out\n") :=
  ⟨(c7_shell_eval_amended "out\n" "err\n" 0).1 (by decide),
   (c7_shell_eval_amended "out\n" "" 7).2 (by decide)⟩

/-- C8.  Multi-target reset is best-effort with aggregated failure: every
name in the list is attempted (the local ones are all reset, in order), each
non-local name contributes its error message ("Unknown setting" for unknown
names, "Remote settings cannot be reset" for remote-owned ones, in input
order), and one overall `CmdError` is raised iff at least one name is not a
resettable local setting. -/
theorem c8_multi_target_reset :
    ∀ (kind : String → SettingKind) (names : List String),
      (resetRun kind names).wasReset = names.filter (fun n => kind n = SettingKind.loc) ∧
      (resetRun kind names).errors = names.filterMap (resetMsg kind) ∧
      ((resetRun kind names).raised = true ↔ ∃ n ∈ names, kind n ≠ SettingKind.loc) := by
  intro kind names
  have main : ∀ ns : List String,
      (resetGo kind ns).1 = ns.filter (fun n => kind n = SettingKind.loc) ∧
      (resetGo kind ns).2.1 = ns.filterMap (resetMsg kind) ∧
      ((resetGo kind ns).2.2 = false ↔ ∃ n ∈ ns, kind n ≠ SettingKind.loc) := by
    intro ns
    induction ns with
    | nil => simp [resetGo]
    | cons x xs ih =>
      obtain ⟨ih1, ih2, ih3⟩ := ih
      cases hkx : kind x <;>
        simp [resetGo, hkx, ih1, ih2, resetMsg, List.filter_cons, List.filterMap_cons] <;>
        simp [← ih3] <;>
        tauto
  obtain ⟨h1, h2, h3⟩ := main names
  rcases hgo : resetGo kind names with ⟨rs, es, ok⟩
  rw [hgo] at h1 h2 h3
  simp only at h1 h2 h3
  have hrun : resetRun kind names = ⟨es, rs, !ok⟩ := by
    unfold resetRun
    rw [hgo]
  rw [hrun]
  refine ⟨h1, h2, ?_⟩
  show (!ok) = true ↔ _
  rw [Bool.not_eq_eq_eq_not]
  simpa using h3

/-- C9 (counterexample).  A converter configured for bytes, called on an
already-typed Float whose stored unit is the spelled-out `"byte"`: the unit
passes the recognition check (`'byte'` is in the recognized set), yet the
call fails with `Cannot convert byte to B` because the conversion table only
knows the short names — the claim's "constructs … and returns it converted"
does not hold for every typed input with a recognized unit. -/
theorem c9_converter_cex :
    mkNumber .float (.lit (.fin 5)) (some "byte") none none none none none false =
      .ok ⟨.float, .fin 5, { defArgs with unit := some "byte" }⟩ ∧
    ("byte" = "bit" ∨ "byte" = "byte" ∨ "byte" = "b" ∨ "byte" = "B") ∧
    convCall ⟨"B", .metric⟩ (.typed ⟨.float, .fin 5, { defArgs with unit := some "byte" }⟩)
      none = .error (.valueError "Cannot convert byte to B") := by
  refine ⟨by with_unfolding_all rfl, by simp, by with_unfolding_all rfl⟩

/-- C9 (amended).  For an untyped raw number the converter behaves as the
claim says: with no source unit it constructs the Number in the configured
unit and returns it unscaled; with a recognized source unit it converts to
the configured unit and prefix (spelled-out units are shortened first, bytes
to bits multiply by 8, bits to bytes divide by 8); an unrecognized source
unit fails with the `Unit must be …` error.  For an already-typed Float the
unit argument is ignored, and conversion succeeds only when the stored unit
is a short name or absent — a stored spelled-out unit passes recognition but
fails in the conversion table (see the counterexample). -/
theorem c9_converter_amended :
    (∀ (v : ℚ) (conv : DataCountConverter), conv.unitS = "b" ∨ conv.unitS = "B" →
      convCall conv (.raw (.fin v)) none =
        .ok ⟨.float, .fin v, ⟨some conv.unitS, conv.prfx, false, none, none, false⟩⟩) ∧
    (∀ v : ℚ,
      convCall ⟨"b", .metric⟩ (.raw (.fin v)) (some "byte") =
        .ok ⟨.float, .fin (v * 8), ⟨some "b", .metric, false, none, none, false⟩⟩ ∧
      convCall ⟨"B", .metric⟩ (.raw (.fin v)) (some "bit") =
        .ok ⟨.float, .fin (v * (1/8)), ⟨some "B", .metric, false, none, none, false⟩⟩) ∧
    (∀ (u : String) (v : ℚ) (conv : DataCountConverter),
      shortUnit u ≠ "bit" → shortUnit u ≠ "byte" → shortUnit u ≠ "b" → shortUnit u ≠ "B" →
      shortUnit u ≠ "" →
      convCall conv (.raw (.fin v)) (some u) =
        .error (.valueError ("Unit must be " ++ pyRepr "b" ++ " (bit) or " ++ pyRepr "B" ++
          " (byte), not " ++ pyRepr (shortUnit u)))) := by
  refine ⟨?_, ?_, ?_⟩
  · intro v conv h
    obtain ⟨us, pk⟩ := conv
    simp only at h
    rcases h with rfl | rfl
    · with_unfolding_all rfl
    · with_unfolding_all rfl
  · intro v
    constructor
    · with_unfolding_all rfl
    · with_unfolding_all rfl
  · intro u v conv hbit hbyte hb hB hne
    obtain ⟨us, pk⟩ := conv
    show Except.bind
      (mkNumber .float (.lit (.fin v))
        (some (if shortUnit u = "" then us else shortUnit u)) none (some pk) none none none false)
      (ensureUnitAndPrefix ⟨us, pk⟩) = _
    rw [if_neg hne]
    rw [show mkNumber .float (.lit (.fin v)) (some (shortUnit u)) none (some pk) none none
        none false = .ok ⟨.float, .fin v, ⟨some (shortUnit u), pk, false, none, none, false⟩⟩ from
      mkNumberTail_float_nobounds (.fin v) (some (shortUnit u)) pk false false]
    show ensureUnitAndPrefix ⟨us, pk⟩ ⟨.float, .fin v, ⟨some (shortUnit u), pk, false, none, none, false⟩⟩ = _
    unfold ensureUnitAndPrefix
    dsimp only
    rw [if_neg hne, if_neg (by simp [hbit, hbyte, hb, hB])]

/-- C9 (witness for the amended theorem): the no-unit clause at 3 with a
byte-configured converter, and the unrecognized-unit clause at `"X"`. -/
theorem c9_converter_amended_witness :
    convCall ⟨"B", .metric⟩ (.raw (.fin 3)) none =
      .ok ⟨.float, .fin 3, ⟨some "B", .metric, false, none, none, false⟩⟩ ∧
    convCall ⟨"B", .metric⟩ (.raw (.fin 3)) (some "X") =
      .error (.valueError ("Unit must be " ++ pyRepr "b" ++ " (bit) or " ++ pyRepr "B" ++
        " (byte), not " ++ pyRepr (shortUnit "X"))) :=
  ⟨c9_converter_amended.1 3 ⟨"B", .metric⟩ (Or.inr rfl),
   c9_converter_amended.2.2 "X" 3 ⟨"B", .metric⟩ (by decide) (by decide) (by decide)
     (by decide) (by decide)⟩

/-- C10.  Operator detection requires at least one character after the
operator: every string whose stripped form is shorter than 3 characters
(including exactly `"+="` and `"-="`) and every non-string value (a typed
Number or a listified sequence) passes through `_get_operator` unchanged
with no operator detected. -/
theorem c10_short_operator :
    (∀ s : String, (pyStrip s).length < 3 → getOperator (.str s) = .ok (.noOp (.str s))) ∧
    getOperator (.str "+=") = .ok (.noOp (.str "+=")) ∧
    getOperator (.str "-=") = .ok (.noOp (.str "-=")) ∧
    (∀ n : Num, getOperator (.num n) = .ok (.noOp (.num n))) ∧
    (∀ xs : List String, getOperator (.listv xs) = .ok (.noOp (.listv xs))) := by
  refine ⟨?_, by with_unfolding_all rfl, by with_unfolding_all rfl, fun n => rfl, fun xs => rfl⟩
  intro s h
  unfold getOperator
  dsimp only
  rw [if_neg (by omega)]

/-- C10 (witness): the short-string clause applied at exactly `"+="`. -/
theorem c10_short_operator_witness :
    (pyStrip "+=").length < 3 ∧ getOperator (.str "+=") = .ok (.noOp (.str "+=")) :=
  ⟨by decide, c10_short_operator.1 "+=" (by decide)⟩

end Stig
